import Mathlib

/-
Verification development for the emailkit library (github.com/optimode/emailkit).

Shallow embedding of the Go sources:
  * types/types.go, result.go        — result data model
  * internal/parse/email.go          — address parsing (IDNA and RFC 5322 parsing
                                       are out-of-scope collaborators, modelled as
                                       injected functions, see ExternalFns)
  * check/syntax.go                  — syntax checker
  * internal/levenshtein/levenshtein.go, check/domain.go — domain checker
  * validator.go                     — pipeline (Validate / ValidateAll / ValidateMany)
  * internal/dnscache/cache.go       — MX cache (sequential heap model plus a
                                       two-thread interleaving model for singleflight)
  * internal/smtppool/pool.go, check/smtp.go — SMTP pool and checker

Go machine integers: response codes are Go int, modelled as Int.  Go len() on
strings counts bytes, modelled by String.utf8ByteSize.  Durations and
timestamps are Nat (nanoseconds); Go time.Since(t) at instant now is now - t.
-/

namespace Emailkit

/-- Outcome of a single validation level (types/types.go CheckResult).
Optional Go fields default to their zero values. -/
structure CheckResult where
  level : String
  passed : Bool
  details : String := ""
  mxHost : String := ""
  smtpCode : Int := 0
  suggestion : String := ""
deriving Repr, DecidableEq, Inhabited

/-- Full outcome of an email validation (result.go Result). -/
structure Result where
  Email : String
  Valid : Bool
  Checks : List CheckResult
deriving Repr, DecidableEq, Inhabited

/-! Go string helpers.  Strings are worked on through their character lists so
that every operation reduces inside the kernel. -/

/-- Character class of Go unicode.IsSpace (the set used by strings.TrimSpace). -/
def goIsSpace (c : Char) : Bool :=
  c == ' ' || c == '\t' || c == '\n' || c.val == 11 || c.val == 12 || c == '\r' ||
  c.val == 0x85 || c.val == 0xA0 || c.val == 0x1680 ||
  (0x2000 ≤ c.val && c.val ≤ 0x200A) ||
  c.val == 0x2028 || c.val == 0x2029 || c.val == 0x202F || c.val == 0x205F || c.val == 0x3000

/-- Go strings.TrimSpace. -/
def trimSpace (s : String) : String :=
  String.mk (((s.data.dropWhile goIsSpace).reverse.dropWhile goIsSpace).reverse)

/-- ASCII lower-casing of one character.  Go strings.ToLower is Unicode aware;
it agrees with this function on the ASCII range, which is all the claims use. -/
def lowerChar (c : Char) : Char :=
  if 'A' ≤ c ∧ c ≤ 'Z' then Char.ofNat (c.toNat + 32) else c

/-- Lower-casing of a string (Go strings.ToLower restricted to ASCII letters). -/
def toLowerStr (s : String) : String := String.mk (s.data.map lowerChar)

/-- Character index of the last occurrence of c in s (Go strings.LastIndex with a
one-character needle; the needle is ASCII in every use, so character positions
and byte positions single out the same occurrence). -/
def lastIdxOf (c : Char) (s : String) : Option Nat :=
  match s.data.reverse.findIdx? (· == c) with
  | some k => some (s.data.length - 1 - k)
  | none => none

/-- Split at the first occurrence of c (Go strings.SplitN with n = 2): returns
the parts before and after when c occurs. -/
def splitFirstAt (c : Char) (s : String) : Option (String × String) :=
  match s.data.findIdx? (· == c) with
  | some i => some (String.mk (s.data.take i), String.mk (s.data.drop (i + 1)))
  | none => none

/-- Go strings.TrimSuffix(s, ".") — removes one trailing dot when present. -/
def trimDotStr (s : String) : String :=
  match s.data.getLast? with
  | some c => if c = '.' then String.mk (s.data.take (s.data.length - 1)) else s
  | none => s

/-- Go strings.Split on a single separator character. -/
def splitChar (c : Char) : List Char → List (List Char)
  | [] => [[]]
  | x :: rest =>
    let r := splitChar c rest
    if x = c then [] :: r
    else (x :: r.headD []) :: r.tail

/-! Parsed email (internal/parse/email.go).  The RFC 5322 parser (net/mail) and
the IDNA2008 conversions (golang.org/x/net/idna) are external collaborators the
spec declares out of scope; they are injected as ExternalFns.  parseAddress
models mail.ParseAddress, returning the Address field on success. -/

/-- External collaborators of the parser: net/mail.ParseAddress (the returned
addr.Address on success), idna.Lookup.ToASCII and idna.Display.ToUnicode. -/
structure ExternalFns where
  parseAddress : String → Option String
  idnaToASCII : String → Option String
  idnaToUnicode : String → Option String

/-- Internal representation of a parsed address (parse.Email). -/
structure EmailP where
  Raw : String
  Local : String := ""
  Domain : String := ""
  DomainUnicode : String := ""
  Valid : Bool := false
deriving Repr, DecidableEq, Inhabited

/-- convertDomain of email.go: ASCII/Punycode and Unicode forms of a
(lower-cased) domain; none when IDNA2008 conversion of a non-ASCII domain
fails. -/
def convertDomain (ext : ExternalFns) (domain : String) : Option (String × String) :=
  if domain.data.any (fun r => r.val > 127) then
    (ext.idnaToASCII domain).map (fun a => (a, domain))
  else
    some (domain, (ext.idnaToUnicode domain).getD domain)

/-- buildEmail of email.go. -/
def buildEmail (ext : ExternalFns) (raw l domain : String) : EmailP :=
  let domainLower := toLowerStr domain
  match convertDomain ext domainLower with
  | none => { Raw := raw }
  | some (a, u) =>
    { Raw := raw, Local := l, Domain := a, DomainUnicode := u, Valid := true }

/-- parseManual of email.go: split at the last at-sign, tolerating Unicode
local parts that net/mail rejects. -/
def parseManual (ext : ExternalFns) (raw : String) : EmailP :=
  match lastIdxOf '@' raw with
  | none => { Raw := raw }
  | some atIdx =>
    if atIdx < 1 ∨ atIdx ≥ raw.data.length - 1 then { Raw := raw }
    else
      let l := String.mk (raw.data.take atIdx)
      let domain := String.mk (raw.data.drop (atIdx + 1))
      if l = "" ∨ domain = "" then { Raw := raw }
      else buildEmail ext raw l domain

/-- NewEmail of email.go: trim, try the RFC 5322 parser (bare, then wrapped in
angle brackets), fall back to manual splitting. -/
def NewEmail (ext : ExternalFns) (raw0 : String) : EmailP :=
  let raw := trimSpace raw0
  let viaAddr : Option String :=
    match ext.parseAddress raw with
    | some a => some a
    | none => ext.parseAddress ("<" ++ raw ++ ">")
  match viaAddr with
  | some addr =>
    match splitFirstAt '@' addr with
    | none => { Raw := raw }
    | some (l, d) =>
      if l = "" ∨ d = "" then { Raw := raw } else buildEmail ext raw l d
  | none => parseManual ext raw

/-! Syntax checker (check/syntax.go).  The Unicode character-class tables of the
Go unicode package are injected; asciiTables agrees with them on ASCII. -/

/-- Character-class tables of the Go unicode package (IsLetter, IsDigit,
IsControl), injected because the full Unicode tables are out of scope. -/
structure UnicodeTables where
  isLetter : Char → Bool
  isDigit : Char → Bool
  isControl : Char → Bool

/-- Tables that coincide with the Go unicode package on the ASCII range. -/
def asciiTables : UnicodeTables :=
  { isLetter := Char.isAlpha
    isDigit := Char.isDigit
    isControl := fun c => c.val < 32 || c.val == 127 }

/-- Double-quote character (written by code point to keep source scanners calm). -/
def quoteChar : Char := Char.ofNat 34

/-- hasQuotedLocal of syntax.go: raw input whose local section is surrounded by
double quotes. -/
def hasQuotedLocal (raw : String) : Bool :=
  match lastIdxOf '@' raw with
  | none => false
  | some atIdx =>
    if atIdx < 1 then false
    else
      let l := raw.data.take atIdx
      l.head? == some quoteChar && l.getLast? == some quoteChar

/-- RFC 5321 special characters permitted in an unquoted local part, the Go
string constant asciiSpecial (given by code points: ! # $ percent ampersand
apostrophe * + / = ? caret underscore backquote braces bar tilde hyphen dot). -/
def asciiSpecial : List Char :=
  [33, 35, 36, 37, 38, 39, 42, 43, 47, 61, 63, 94, 95, 96, 123, 124, 125, 126, 45, 46].map Char.ofNat

/-- Character loop of validateLocal: first error among the characters, in order. -/
def localCharErr (tabs : UnicodeTables) : List Char → String
  | [] => ""
  | ch :: rest =>
    if ch.val > 127 then
      if tabs.isControl ch then "local part contains control character"
      else localCharErr tabs rest
    else if ('a' ≤ ch ∧ ch ≤ 'z') ∨ ('A' ≤ ch ∧ ch ≤ 'Z') ∨ ('0' ≤ ch ∧ ch ≤ '9') then
      localCharErr tabs rest
    else if asciiSpecial.contains ch then localCharErr tabs rest
    else "local part contains invalid character: " ++ String.mk [ch]

/-- Adjacent-dots test (Go strings.Contains(local, "..")). -/
def hasConsecDots : List Char → Bool
  | c1 :: c2 :: rest => (c1 == '.' && c2 == '.') || hasConsecDots (c2 :: rest)
  | _ => false

/-- validateLocal of syntax.go: error text, or the empty string when fine. -/
def validateLocal (tabs : UnicodeTables) (l : String) : String :=
  if l = "" then "local part is empty"
  else if l.data.head? == some quoteChar && l.data.getLast? == some quoteChar then ""
  else
    let e := localCharErr tabs l.data
    if e ≠ "" then e
    else if l.data.head? == some '.' || l.data.getLast? == some '.' then
      "local part cannot start or end with a dot"
    else if hasConsecDots l.data then "local part cannot contain consecutive dots"
    else ""

/-- Per-label validation of validateDomain (label lengths are Go len(), bytes). -/
def oneLabelErr (tabs : UnicodeTables) (label : List Char) : Option String :=
  if label = [] then some "domain contains empty label (consecutive dots)"
  else if (String.mk label).utf8ByteSize > 63 then some "domain label exceeds 63 characters"
  else if label.head? == some '-' || label.getLast? == some '-' then
    some "domain label cannot start or end with a hyphen"
  else
    match label.find? (fun ch => !(tabs.isLetter ch || tabs.isDigit ch || ch == '-')) with
    | some ch => some ("domain label contains invalid character: " ++ String.mk [ch])
    | none => none

/-- First failing label, in order. -/
def labelErr (tabs : UnicodeTables) : List (List Char) → Option String
  | [] => none
  | l :: rest =>
    match oneLabelErr tabs l with
    | some e => some e
    | none => labelErr tabs rest

/-- validateDomain of syntax.go, operating on the Unicode form. -/
def validateDomain (tabs : UnicodeTables) (domain : String) : String :=
  if domain = "" then "domain is empty"
  else if domain.data.head? == some '[' && domain.data.getLast? == some ']' then ""
  else
    let labels := splitChar '.' domain.data
    if labels.length < 2 then "domain must have at least two labels"
    else
      match labelErr tabs labels with
      | some e => e
      | none =>
        let tld := labels.getLastD []
        if tld.all tabs.isDigit then "TLD cannot be all digits" else ""

/-- SyntaxChecker.Check of syntax.go.  Go len() counts bytes, hence
utf8ByteSize in the two RFC 5321 length gates. -/
def synCheck (tabs : UnicodeTables) (email : EmailP) : CheckResult :=
  let level := "syntax"
  if email.Raw = "" then
    { level := level, passed := false, details := "empty email address" }
  else if !email.Valid then
    { level := level, passed := false, details := "invalid email syntax" }
  else if email.Raw.utf8ByteSize > 254 then
    { level := level, passed := false, details := "email address exceeds 254 characters" }
  else if email.Local.utf8ByteSize > 64 then
    { level := level, passed := false, details := "local part exceeds 64 characters" }
  else
    let quotedLocal := hasQuotedLocal email.Raw
    let localErr := if !quotedLocal then validateLocal tabs email.Local else ""
    if localErr ≠ "" then { level := level, passed := false, details := localErr }
    else
      let domErr := validateDomain tabs email.DomainUnicode
      if domErr ≠ "" then { level := level, passed := false, details := domErr }
      else { level := level, passed := true, details := "syntax ok" }

/-! Levenshtein distance (internal/levenshtein/levenshtein.go): the two-row
dynamic programme over rune slices, with the shorter string as the column. -/

/-- min3 of levenshtein.go. -/
def min3 (a b c : Nat) : Nat :=
  if a < b then (if a < c then a else c) else (if b < c then b else c)

/-- Inner loop of Distance: builds the current row to the right of the value
left just written, consuming the previous row (deletion, insertion,
substitution). -/
def levUpd (tc : Char) : List Char → List Nat → Nat → List Nat
  | sc :: srest, pdiag :: ptail, left =>
    let pup := ptail.headD 0
    let cost := if sc = tc then 0 else 1
    let cur := min3 (left + 1) (pup + 1) (pdiag + cost)
    cur :: levUpd tc srest ptail cur
  | _, _, _ => []

/-- Outer loop of Distance: one row per character of the longer string. -/
def levRows (sr : List Char) : List Char → Nat → List Nat → List Nat
  | [], _, prev => prev
  | tc :: trest, j, prev => levRows sr trest (j + 1) ((j + 1) :: levUpd tc sr prev (j + 1))

/-- Distance of levenshtein.go. -/
def levDistance (s t : String) : Nat :=
  let sr := s.data
  let tr := t.data
  if sr.length = 0 then tr.length
  else if tr.length = 0 then sr.length
  else
    let p := if sr.length > tr.length then (tr, sr) else (sr, tr)
    (levRows p.1 p.2 0 (List.range (p.1.length + 1))).getLastD 0

/-! Domain checker (check/domain.go).  The embedded disposable list (static
data, out of scope) is injected as a membership predicate on the ASCII
domain. -/

/-- defaultKnownProviders of domain.go. -/
def defaultKnownProviders : List String :=
  ["gmail.com", "googlemail.com",
   "yahoo.com", "yahoo.co.uk", "yahoo.fr", "yahoo.de",
   "outlook.com", "hotmail.com", "hotmail.co.uk", "live.com",
   "icloud.com", "me.com", "mac.com",
   "protonmail.com", "proton.me",
   "aol.com",
   "zoho.com",
   "yandex.com", "yandex.ru",
   "mail.com",
   "gmx.com", "gmx.net", "gmx.de",
   "fastmail.com",
   "tutanota.com",
   "freemail.hu", "citromail.hu", "t-online.hu", "invitel.hu"]

/-- DomainConfig of domain.go (TypoThreshold is a Go int; the claims use the
default 2, so Nat suffices). -/
structure DomainConfig where
  CheckDisposable : Bool
  CheckTypos : Bool
  TypoThreshold : Nat

/-- Loop of findTypoSuggestion: exact match returns no suggestion at once;
otherwise keep the strictly closest provider within the threshold. -/
def findTypoLoop (thr : Nat) (domain : String) :
    List String → Nat → String → String
  | [], _, bestMatch => bestMatch
  | provider :: rest, bestDist, bestMatch =>
    if domain = provider then ""
    else
      let dist := levDistance domain provider
      if dist ≤ thr ∧ dist < bestDist then findTypoLoop thr domain rest dist provider
      else findTypoLoop thr domain rest bestDist bestMatch

/-- findTypoSuggestion of domain.go over a provider list (the checker always
uses defaultKnownProviders). -/
def findTypoSuggestion (providers : List String) (thr : Nat) (domain : String) : String :=
  findTypoLoop thr domain providers (thr + 1) ""

/-- DomainChecker.Check of domain.go. -/
def domainCheck (isDisposable : String → Bool) (cfg : DomainConfig) (email : EmailP) :
    CheckResult :=
  let level := "domain"
  if !email.Valid then
    { level := level, passed := false, details := "skipped: invalid email" }
  else
    let asciiDomain := toLowerStr email.Domain
    let unicodeDomain := toLowerStr email.DomainUnicode
    if cfg.CheckDisposable ∧ isDisposable asciiDomain then
      { level := level, passed := false, details := "disposable email domain detected" }
    else if cfg.CheckTypos then
      let sug := findTypoSuggestion defaultKnownProviders cfg.TypoThreshold unicodeDomain
      if sug ≠ "" then
        { level := level, passed := true, details := "possible typo in domain",
          suggestion := sug }
      else { level := level, passed := true, details := "domain ok" }
    else { level := level, passed := true, details := "domain ok" }

/-! Validator pipeline (validator.go).  A checker is modelled as a function
from the parsed email to a CheckResult; the pipeline logic is independent of
which checkers are registered, so the pipeline theorems quantify over arbitrary
checker lists. -/

/-- Latched configuration errors (errors.go). -/
inductive ConfigErr
  | invalidSMTPOptions
  | noChecksConfigured
deriving Repr, DecidableEq

/-- The checker interface of validator.go (context dropped: the claims proved
over the pipeline do not involve cancellation). -/
abbrev Checker := EmailP → CheckResult

/-- Validator of validator.go: ordered checkers plus the latched configuration
error. -/
structure Validator where
  checkers : List Checker
  err : Option ConfigErr := none

/-- Short-circuit loop of Validate: append each result and stop at the first
failure. -/
def runChecksSC (parsed : EmailP) : List Checker → List CheckResult → Bool × List CheckResult
  | [], acc => (true, acc)
  | c :: rest, acc =>
    let cr := c parsed
    if cr.passed then runChecksSC parsed rest (acc ++ [cr])
    else (false, acc ++ [cr])

/-- Validate of validator.go restricted to a checker list (the latched-error
gate is in validate below). -/
def validateCore (ext : ExternalFns) (checkers : List Checker) (email : String) : Result :=
  let parsed := NewEmail ext email
  let p := runChecksSC parsed checkers []
  { Email := email, Valid := p.1, Checks := p.2 }

/-- Validate of validator.go. -/
def validate (ext : ExternalFns) (v : Validator) (email : String) : Except ConfigErr Result :=
  match v.err with
  | some e => .error e
  | none => .ok (validateCore ext v.checkers email)

/-- Loop of ValidateAll: never stops, Valid is cleared at each failure. -/
def runChecksAll (parsed : EmailP) :
    List Checker → Bool → List CheckResult → Bool × List CheckResult
  | [], valid, acc => (valid, acc)
  | c :: rest, valid, acc =>
    let cr := c parsed
    runChecksAll parsed rest (if cr.passed then valid else false) (acc ++ [cr])

/-- ValidateAll of validator.go restricted to a checker list. -/
def validateAllCore (ext : ExternalFns) (checkers : List Checker) (email : String) : Result :=
  let parsed := NewEmail ext email
  let p := runChecksAll parsed checkers true []
  { Email := email, Valid := p.1, Checks := p.2 }

/-- ValidateAll of validator.go. -/
def validateAll (ext : ExternalFns) (v : Validator) (email : String) : Except ConfigErr Result :=
  match v.err with
  | some e => .error e
  | none => .ok (validateAllCore ext v.checkers email)

/-! ValidateMany (validator.go).  Jobs carry their input index; they are sorted
by domain key for locality and each worker writes its result into the fixed
slot results[j.idx].  Each job is handled by exactly one worker and the
checkers are modelled as pure functions, so the concurrent execution computes
the same slot contents as a sequential fold over the sorted jobs; sort.Slice
(an unstable sort) is modelled by insertionSort — the theorems only use that
the sort permutes the jobs, which is true of any sorting algorithm. -/

/-- One bulk job (the anonymous job struct of ValidateMany). -/
structure Job where
  idx : Nat
  email : String
  domain : String
deriving Repr, DecidableEq, Inhabited

/-- Domain key of a bulk job: case-folded suffix after the last at-sign, empty
when there is none. -/
def domainKeyOf (e : String) : String :=
  match lastIdxOf '@' e with
  | some atIdx => toLowerStr (String.mk (e.data.drop (atIdx + 1)))
  | none => ""

/-- Byte-wise Go string comparison a < b (UTF-8 byte order equals code-point
order). -/
def charListLt : List Char → List Char → Bool
  | _, [] => false
  | [], _ :: _ => true
  | a :: as, b :: bs =>
    if a.val < b.val then true else if b.val < a.val then false else charListLt as bs

/-- Go string less-than. -/
def goStrLt (a b : String) : Bool := charListLt a.data b.data

/-- Job list with original indices attached (the jobSlice build loop). -/
def enumJobs (base : Nat) : List String → List Job
  | [] => []
  | e :: rest => { idx := base, email := e, domain := domainKeyOf e } :: enumJobs (base + 1) rest

/-- Sort of the job slice by domain key. -/
def sortJobs (l : List Job) : List Job :=
  List.insertionSort (fun a b => goStrLt a.domain b.domain = true) l

/-- ValidateMany of validator.go restricted to a checker list: build jobs, sort
by domain, run every job, write each result at its input index. -/
def validateManyCore (ext : ExternalFns) (checkers : List Checker) (emails : List String) :
    List Result :=
  let jobSlice := enumJobs 0 emails
  let sorted := sortJobs jobSlice
  let init : List Result := List.replicate emails.length default
  sorted.foldl (fun acc j => acc.set j.idx (validateCore ext checkers j.email)) init

/-- ValidateMany of validator.go. -/
def validateMany (ext : ExternalFns) (v : Validator) (emails : List String) :
    Except ConfigErr (List Result) :=
  match v.err with
  | some e => .error e
  | none => .ok (validateManyCore ext v.checkers emails)

/-! DNS MX cache (internal/dnscache/cache.go), sequential model.

Go hands out slices of pointers to net.MX objects; the defensive-copy
guarantee is about object identity, so records live in an explicit heap of
addresses.  A LookupMX call is modelled as a state transformer over
(cache map, heap); the injected resolver is a pure function.  In a sequential
execution an entry is installed and filled inside one call, so every stored
entry is completed (the done channel is closed); the completion signal itself
is the subject of the interleaving model further below. -/

namespace DnsCache

/-- MX record value (net.MX: Host, Pref). -/
structure MXr where
  host : String
  pref : Nat
deriving Repr, DecidableEq, Inhabited

/-- Heap of net.MX objects, with a bump allocator. -/
structure Heap where
  next : Nat
  mem : Nat → MXr

/-- Values behind a list of record pointers. -/
def readList (h : Heap) (addrs : List Nat) : List MXr := addrs.map h.mem

/-- Allocation of fresh record objects holding the given values. -/
def allocList (h : Heap) : List MXr → List Nat × Heap
  | [] => ([], h)
  | v :: vs =>
    let a := h.next
    let h1 : Heap := { next := h.next + 1, mem := fun x => if x = a then v else h.mem x }
    let p := allocList h1 vs
    (a :: p.1, p.2)

/-- Addresses of a nilable slice (none is Go nil). -/
def addrsOf (o : Option (List Nat)) : List Nat := o.getD []

/-- copyMX of cache.go: nil stays nil, otherwise a deep copy — fresh objects
with the same field values. -/
def copyMX (h : Heap) : Option (List Nat) → Option (List Nat) × Heap
  | none => (none, h)
  | some addrs =>
    let p := allocList h (readList h addrs)
    (some p.1, p.2)

/-- Record values of a nilable slice in a heap. -/
def valsOf (o : Option (List Nat)) (h : Heap) : Option (List MXr) :=
  o.map (readList h)

/-- Cache entry: records, error and expiry (the done channel is closed in every
stored entry of the sequential model). -/
structure CEntry where
  recs : Option (List Nat)
  err : Option String
  expires : Nat

/-- Cache state: the entry map plus the configured TTL. -/
structure CacheS where
  entries : List (String × CEntry)
  cacheTTL : Nat

/-- Map lookup. -/
def lookupEntry (st : CacheS) (d : String) : Option CEntry :=
  match st.entries.find? (fun p => p.1 == d) with
  | some p => some p.2
  | none => none

/-- Map update (install or replace the entry for d). -/
def insertEntry (st : CacheS) (d : String) (e : CEntry) : CacheS :=
  { st with entries := (d, e) :: st.entries.filter (fun p => !(p.1 == d)) }

/-- Result of the injected resolver: records (none models a nil slice) and
error. -/
structure ResolverOut where
  recs : Option (List MXr)
  err : Option String
deriving Repr, DecidableEq

/-- Outcome of one LookupMX call: the returned copy, the new cache and heap,
and whether the resolver was invoked (the instrumentation the singleflight and
negative-caching claims count). -/
structure LookupOut where
  recs : Option (List Nat)
  err : Option String
  st : CacheS
  heap : Heap
  called : Bool

/-- Refresh path of LookupMX: invoke the resolver, store its records in a new
completed entry with expiry now + TTL (errors are stored the same way), then
return a deep copy. -/
def refreshLookup (resolver : String → ResolverOut) (now : Nat) (st : CacheS) (h : Heap)
    (domain : String) : LookupOut :=
  let r := resolver domain
  let stored : Option (List Nat) × Heap :=
    match r.recs with
    | none => (none, h)
    | some vs =>
      let p := allocList h vs
      (some p.1, p.2)
  let e : CEntry := { recs := stored.1, err := r.err, expires := now + st.cacheTTL }
  let st1 := insertEntry st domain e
  let p := copyMX stored.2 stored.1
  { recs := p.1, err := r.err, st := st1, heap := p.2, called := true }

/-- LookupMX of cache.go (sequential executions): a completed, unexpired entry
is served as a deep copy without touching the resolver; otherwise refresh. -/
def lookupMX (resolver : String → ResolverOut) (now : Nat) (st : CacheS) (h : Heap)
    (domain : String) : LookupOut :=
  match lookupEntry st domain with
  | some e =>
    if now < e.expires then
      let p := copyMX h e.recs
      { recs := p.1, err := e.err, st := st, heap := p.2, called := false }
    else refreshLookup resolver now st h domain
  | none => refreshLookup resolver now st h domain

/-- Entry whose record pointers all lie below the allocation frontier. -/
def entryOk (h : Heap) (e : CEntry) : Prop := ∀ a ∈ addrsOf e.recs, a < h.next

/-- Cache whose every entry is allocation-consistent with the heap. -/
def cacheOk (st : CacheS) (h : Heap) : Prop :=
  ∀ p ∈ st.entries, entryOk h p.2

theorem entryOk_mono (h h' : Heap) (e : CEntry) (hn : h.next ≤ h'.next)
    (he : entryOk h e) : entryOk h' e :=
  fun a ha => lt_of_lt_of_le (he a ha) hn

theorem lookupEntry_mem (st : CacheS) (d : String) (e : CEntry)
    (hl : lookupEntry st d = some e) : (d, e) ∈ st.entries := by
  unfold lookupEntry at hl
  cases hf : st.entries.find? (fun p => p.1 == d) with
  | none => rw [hf] at hl; exact absurd hl (by simp)
  | some p =>
    rw [hf] at hl
    have hmem := List.mem_of_find?_eq_some hf
    have hpred := List.find?_some hf
    simp only [beq_iff_eq] at hpred
    simp only [Option.some_inj] at hl
    have : p = (d, e) := by
      cases p; simp only at hpred hl; simp [hpred, hl]
    rwa [this] at hmem

theorem lookupEntry_insert_self (st : CacheS) (d : String) (e : CEntry) :
    lookupEntry (insertEntry st d e) d = some e := by
  unfold lookupEntry insertEntry
  rw [List.find?_cons_of_pos _ (by simp)]

/-- Successor heap written by one allocation step. -/
def bump (h : Heap) (v : MXr) : Heap :=
  { next := h.next + 1, mem := fun x => if x = h.next then v else h.mem x }

theorem allocList_cons_fst (h : Heap) (v : MXr) (vs : List MXr) :
    (allocList h (v :: vs)).1 = h.next :: (allocList (bump h v) vs).1 := rfl

theorem allocList_cons_snd (h : Heap) (v : MXr) (vs : List MXr) :
    (allocList h (v :: vs)).2 = (allocList (bump h v) vs).2 := rfl

theorem allocList_next (vs : List MXr) :
    ∀ h : Heap, (allocList h vs).2.next = h.next + vs.length := by
  induction vs with
  | nil => intro h; simp [allocList]
  | cons v vs ih =>
    intro h
    rw [allocList_cons_snd]
    have t := ih (bump h v)
    have tb : (bump h v).next = h.next + 1 := rfl
    rw [tb] at t
    simp only [List.length_cons, t]
    omega

theorem allocList_mem_range (vs : List MXr) :
    ∀ h : Heap, ∀ a ∈ (allocList h vs).1, h.next ≤ a ∧ a < h.next + vs.length := by
  induction vs with
  | nil => intro h a ha; simp [allocList] at ha
  | cons v vs ih =>
    intro h a ha
    rw [allocList_cons_fst] at ha
    simp only [List.mem_cons] at ha
    simp only [List.length_cons]
    rcases ha with rfl | ha
    · omega
    · have t := ih (bump h v) a ha
      have tb : (bump h v).next = h.next + 1 := rfl
      rw [tb] at t
      omega

theorem allocList_preserve (vs : List MXr) :
    ∀ h : Heap, ∀ x, x < h.next → (allocList h vs).2.mem x = h.mem x := by
  induction vs with
  | nil => intro h x _; simp [allocList]
  | cons v vs ih =>
    intro h x hx
    rw [allocList_cons_snd]
    have t := ih (bump h v) x (Nat.lt_succ_of_lt hx)
    rw [t]
    show (if x = h.next then v else h.mem x) = h.mem x
    rw [if_neg (by omega)]

theorem allocList_read (vs : List MXr) :
    ∀ h : Heap, readList (allocList h vs).2 (allocList h vs).1 = vs := by
  induction vs with
  | nil => intro h; simp [allocList, readList]
  | cons v vs ih =>
    intro h
    rw [allocList_cons_fst, allocList_cons_snd]
    have hm : (allocList (bump h v) vs).2.mem h.next = v := by
      rw [allocList_preserve vs (bump h v) h.next (Nat.lt_succ_self _)]
      show (if h.next = h.next then v else h.mem h.next) = v
      rw [if_pos rfl]
    have hrest := ih (bump h v)
    simp only [readList, List.map_cons] at *
    rw [hm, hrest]

theorem copyMX_next (h : Heap) (o : Option (List Nat)) : h.next ≤ (copyMX h o).2.next := by
  cases o with
  | none => simp [copyMX]
  | some addrs => simp [copyMX, allocList_next]

theorem copyMX_fresh (h : Heap) (o : Option (List Nat)) :
    ∀ a ∈ addrsOf (copyMX h o).1, h.next ≤ a := by
  cases o with
  | none => simp [copyMX, addrsOf]
  | some addrs =>
    intro a ha
    simp only [copyMX, addrsOf, Option.getD_some] at ha
    exact (allocList_mem_range _ h a ha).1

theorem copyMX_preserve (h : Heap) (o : Option (List Nat)) :
    ∀ x, x < h.next → (copyMX h o).2.mem x = h.mem x := by
  cases o with
  | none => intro x _; rfl
  | some addrs => intro x hx; exact allocList_preserve _ h x hx

theorem copyMX_read (h : Heap) (o : Option (List Nat)) :
    valsOf (copyMX h o).1 (copyMX h o).2 = valsOf o h := by
  cases o with
  | none => rfl
  | some addrs =>
    simp only [copyMX, valsOf, Option.map_some]
    exact congrArg some (allocList_read _ h)

/-- Reading a pointer list is unchanged by a heap step that preserves every
cell below a frontier the list lives under. -/
theorem readList_frontier (h h' : Heap) (addrs : List Nat) (bound : Nat)
    (hb : ∀ a ∈ addrs, a < bound)
    (hp : ∀ x, x < bound → h'.mem x = h.mem x) :
    readList h' addrs = readList h addrs := by
  unfold readList
  exact List.map_congr_left (fun a ha => hp a (hb a ha))

theorem valsOf_frontier (h h' : Heap) (o : Option (List Nat)) (bound : Nat)
    (hb : ∀ a ∈ addrsOf o, a < bound)
    (hp : ∀ x, x < bound → h'.mem x = h.mem x) :
    valsOf o h' = valsOf o h := by
  cases o with
  | none => rfl
  | some addrs =>
    have hr := readList_frontier h h' addrs bound (by simpa [addrsOf] using hb) hp
    simp [valsOf, hr]

theorem refreshLookup_eq_none (resolver : String → ResolverOut) (now : Nat) (st : CacheS)
    (h : Heap) (domain : String) (hr : (resolver domain).recs = none) :
    refreshLookup resolver now st h domain =
      { recs := none, err := (resolver domain).err,
        st := insertEntry st domain
          { recs := none, err := (resolver domain).err, expires := now + st.cacheTTL },
        heap := h, called := true } := by
  simp only [refreshLookup, hr, copyMX]

theorem refreshLookup_eq_some (resolver : String → ResolverOut) (now : Nat) (st : CacheS)
    (h : Heap) (domain : String) (vs : List MXr) (hr : (resolver domain).recs = some vs) :
    refreshLookup resolver now st h domain =
      { recs := (copyMX (allocList h vs).2 (some (allocList h vs).1)).1,
        err := (resolver domain).err,
        st := insertEntry st domain
          { recs := some (allocList h vs).1, err := (resolver domain).err,
            expires := now + st.cacheTTL },
        heap := (copyMX (allocList h vs).2 (some (allocList h vs).1)).2, called := true } := by
  simp only [refreshLookup, hr]

/-- What one refresh (resolver call) establishes: the cache stays
allocation-consistent, the TTL is preserved, the heap only grows, the returned
copy shares no object with any stored entry, and the domain now has an entry
whose error and record values the returned copy mirrors, stamped now + TTL. -/
theorem refreshLookup_spec (resolver : String → ResolverOut) (now : Nat) (st : CacheS)
    (h : Heap) (domain : String) (hok : cacheOk st h) :
    cacheOk (refreshLookup resolver now st h domain).st (refreshLookup resolver now st h domain).heap ∧
    (refreshLookup resolver now st h domain).st.cacheTTL = st.cacheTTL ∧
    h.next ≤ (refreshLookup resolver now st h domain).heap.next ∧
    (∀ p ∈ (refreshLookup resolver now st h domain).st.entries,
      ∀ a ∈ addrsOf (refreshLookup resolver now st h domain).recs, a ∉ addrsOf p.2.recs) ∧
    (∃ e, lookupEntry (refreshLookup resolver now st h domain).st domain = some e ∧
      (refreshLookup resolver now st h domain).err = e.err ∧
      e.expires = now + st.cacheTTL ∧
      valsOf (refreshLookup resolver now st h domain).recs
        (refreshLookup resolver now st h domain).heap =
      valsOf e.recs (refreshLookup resolver now st h domain).heap) ∧
    (refreshLookup resolver now st h domain).called = true := by
  cases hr : (resolver domain).recs with
  | none =>
    rw [refreshLookup_eq_none resolver now st h domain hr]
    dsimp only
    refine ⟨?_, rfl, le_refl _, ?_, ⟨_, lookupEntry_insert_self _ _ _, rfl, rfl, rfl⟩, rfl⟩
    · intro p hp
      simp only [insertEntry, List.mem_cons] at hp
      rcases hp with rfl | hp
      · intro a ha; simp [addrsOf] at ha
      · exact hok p (List.mem_of_mem_filter hp)
    · intro p _ a ha
      simp [addrsOf] at ha
  | some vs =>
    rw [refreshLookup_eq_some resolver now st h domain vs hr]
    dsimp only
    set p1 := allocList h vs with hp1
    set cp := copyMX p1.2 (some p1.1) with hcp
    have hnext1 : p1.2.next = h.next + vs.length := allocList_next vs h
    have hfrontier : ∀ x, x < p1.2.next → cp.2.mem x = p1.2.mem x :=
      copyMX_preserve p1.2 (some p1.1)
    have hstore_lt : ∀ a ∈ p1.1, a < p1.2.next := by
      intro a ha
      have := allocList_mem_range vs h a ha
      omega
    have hout_ge : ∀ a ∈ addrsOf cp.1, p1.2.next ≤ a := copyMX_fresh p1.2 (some p1.1)
    have hnext2 : p1.2.next ≤ cp.2.next := copyMX_next p1.2 (some p1.1)
    refine ⟨?_, rfl, by omega, ?_, ⟨_, lookupEntry_insert_self _ _ _, rfl, rfl, ?_⟩, rfl⟩
    · intro q hq
      simp only [insertEntry, List.mem_cons] at hq
      rcases hq with rfl | hq
      · intro a ha
        simp only [addrsOf, Option.getD_some] at ha
        have := hstore_lt a ha
        omega
      · exact entryOk_mono h cp.2 _ (by omega) (hok q (List.mem_of_mem_filter hq))
    · intro q hq a ha hmem
      simp only [insertEntry, List.mem_cons] at hq
      have hge := hout_ge a ha
      rcases hq with rfl | hq
      · simp only [addrsOf, Option.getD_some] at hmem
        have := hstore_lt a hmem
        omega
      · have := hok q (List.mem_of_mem_filter hq) a hmem
        omega
    · rw [show cp.1 = (copyMX p1.2 (some p1.1)).1 from rfl,
          show cp.2 = (copyMX p1.2 (some p1.1)).2 from rfl,
          copyMX_read p1.2 (some p1.1)]
      exact (valsOf_frontier p1.2 cp.2 (some p1.1) p1.2.next
        (by simpa [addrsOf] using hstore_lt) hfrontier).symm

/-- What one LookupMX call establishes, from any allocation-consistent state:
see refreshLookup_spec; a cache hit satisfies the same contract without a
resolver call. -/
theorem lookupMX_spec (resolver : String → ResolverOut) (now : Nat) (st : CacheS)
    (h : Heap) (domain : String) (hok : cacheOk st h) :
    cacheOk (lookupMX resolver now st h domain).st (lookupMX resolver now st h domain).heap ∧
    (lookupMX resolver now st h domain).st.cacheTTL = st.cacheTTL ∧
    h.next ≤ (lookupMX resolver now st h domain).heap.next ∧
    (∀ p ∈ (lookupMX resolver now st h domain).st.entries,
      ∀ a ∈ addrsOf (lookupMX resolver now st h domain).recs, a ∉ addrsOf p.2.recs) ∧
    (∃ e, lookupEntry (lookupMX resolver now st h domain).st domain = some e ∧
      (lookupMX resolver now st h domain).err = e.err ∧
      valsOf (lookupMX resolver now st h domain).recs (lookupMX resolver now st h domain).heap =
      valsOf e.recs (lookupMX resolver now st h domain).heap) := by
  unfold lookupMX
  cases hl : lookupEntry st domain with
  | none =>
    dsimp only
    have := refreshLookup_spec resolver now st h domain hok
    exact ⟨this.1, this.2.1, this.2.2.1, this.2.2.2.1,
      this.2.2.2.2.1.elim (fun e he => ⟨e, he.1, he.2.1, he.2.2.2⟩)⟩
  | some e =>
    dsimp only
    by_cases hexp : now < e.expires
    · rw [if_pos hexp]
      dsimp only
      have hentry : entryOk h e := hok (domain, e) (lookupEntry_mem st domain e hl)
      have hfrontier := copyMX_preserve h e.recs
      have hfresh := copyMX_fresh h e.recs
      have hnext := copyMX_next h e.recs
      refine ⟨?_, rfl, hnext, ?_, ⟨e, hl, rfl, ?_⟩⟩
      · exact fun q hq => entryOk_mono h _ _ hnext (hok q hq)
      · intro q hq a ha hmem
        have h1 := hfresh a ha
        have h2 := hok q hq a hmem
        omega
      · rw [copyMX_read h e.recs]
        exact (valsOf_frontier h (copyMX h e.recs).2 e.recs h.next hentry hfrontier).symm
    · rw [if_neg hexp]
      have := refreshLookup_spec resolver now st h domain hok
      exact ⟨this.1, this.2.1, this.2.2.1, this.2.2.2.1,
        this.2.2.2.2.1.elim (fun e' he => ⟨e', he.1, he.2.1, he.2.2.2⟩)⟩

end DnsCache

/-! Singleflight (internal/dnscache/cache.go, LookupMX), interleaving model.

Two concurrent LookupMX callers for the same domain are modelled as a
transition system whose atomic steps are the mutex-protected sections and the
network lookup of cache.go.  Time is frozen during the race (expiry is an
attribute of the entry) and the resolver's answer for the domain is a fixed
value rv.  A single slot stands for the domain's map entry: with two callers
nobody can replace an entry while the other waits on it, because installing
requires an absent or completed-and-expired entry while the entry being waited
on is incomplete, and a freshly resolved entry is unexpired. -/

namespace DnsFlight

/-- Value-level outcome of a lookup, shared by singleflight waiters. -/
structure LookRes where
  recs : Option (List (String × Nat))
  err : Option String
deriving Repr, DecidableEq, Inhabited

/-- Caller state: before the first mutex section, performing the network
lookup, blocked on an entry's done channel, or returned with a result. -/
inductive TSt
  | start
  | resolving
  | waiting
  | done (r : LookRes)
deriving Repr, DecidableEq

/-- The domain's cache entry: whether the done channel is closed, the stored
value, and whether its expiry lies in the past. -/
structure Entry6 where
  done : Bool
  val : LookRes
  expired : Bool
deriving Repr, DecidableEq, Inhabited

/-- The two concurrent callers. -/
inductive Tid
  | A
  | B
deriving Repr, DecidableEq

/-- Race configuration: the domain's map slot, the resolver invocation
counter, and both caller states. -/
structure Cfg6 where
  slot : Option Entry6
  cnt : Nat
  thA : TSt
  thB : TSt
deriving Repr, DecidableEq

/-- State of one caller. -/
def Cfg6.th (c : Cfg6) : Tid → TSt
  | .A => c.thA
  | .B => c.thB

/-- Replace one caller's state. -/
def Cfg6.setTh (c : Cfg6) : Tid → TSt → Cfg6
  | .A, t => { c with thA := t }
  | .B, t => { c with thB := t }

/-- Slot on which LookupMX starts a fresh lookup: absent, or completed and
expired. -/
def staleSlot : Option Entry6 → Prop
  | none => True
  | some e => e.done = true ∧ e.expired = true

/-- Usable cached entry: completed and unexpired. -/
def usable : Option Entry6 → Prop
  | some e => e.done = true ∧ e.expired = false
  | none => False

/-- One atomic step of LookupMX by one of the two callers; rv is the result
the injected resolver returns for the domain.
hit: under the mutex, a completed unexpired entry is copied out and returned.
waitOn: under the mutex, an incomplete entry is found; block on its channel.
install: under the mutex, no usable entry; install an incomplete entry and
proceed to the network lookup.
resolve: perform the network lookup (counter increments), fill the entry,
close its done channel, return the result.
wake: the channel the caller blocks on is closed; return the shared result. -/
inductive Step (rv : LookRes) : Cfg6 → Cfg6 → Prop
  | hit (c : Cfg6) (t : Tid) (e : Entry6) :
      c.th t = .start → c.slot = some e → e.done = true → e.expired = false →
      Step rv c (c.setTh t (.done e.val))
  | waitOn (c : Cfg6) (t : Tid) (e : Entry6) :
      c.th t = .start → c.slot = some e → e.done = false →
      Step rv c (c.setTh t .waiting)
  | install (c : Cfg6) (t : Tid) :
      c.th t = .start → staleSlot c.slot →
      Step rv c
        { c.setTh t .resolving with
          slot := some { done := false, val := default, expired := false } }
  | resolve (c : Cfg6) (t : Tid) :
      c.th t = .resolving →
      Step rv c
        { c.setTh t (.done rv) with
          slot := some { done := true, val := rv, expired := false }, cnt := c.cnt + 1 }
  | wake (c : Cfg6) (t : Tid) (e : Entry6) :
      c.th t = .waiting → c.slot = some e → e.done = true →
      Step rv c (c.setTh t (.done e.val))

/-- Interleavings: reflexive-transitive closure of single steps. -/
def Reach (rv : LookRes) : Cfg6 → Cfg6 → Prop := Relation.ReflTransGen (Step rv)

/-- The one result every finishing caller returns: the cached value when the
race starts over a completed unexpired entry, the resolver's value otherwise. -/
def expectedRes (rv : LookRes) (c0 : Cfg6) : LookRes :=
  match c0.slot with
  | some e => if e.done = true ∧ e.expired = false then e.val else rv
  | none => rv

theorem th_setTh (c : Cfg6) (t t' : Tid) (s : TSt) :
    (c.setTh t s).th t' = if t' = t then s else c.th t' := by
  cases t <;> cases t' <;> simp [Cfg6.setTh, Cfg6.th]

theorem slot_setTh (c : Cfg6) (t : Tid) (s : TSt) : (c.setTh t s).slot = c.slot := by
  cases t <;> rfl

theorem cnt_setTh (c : Cfg6) (t : Tid) (s : TSt) : (c.setTh t s).cnt = c.cnt := by
  cases t <;> rfl

theorem th_with_slot (c : Cfg6) (x : Option Entry6) :
    ({ c with slot := x } : Cfg6).th = c.th := by
  funext t; cases t <;> rfl

theorem th_with_slot_cnt (c : Cfg6) (x : Option Entry6) (n : Nat) :
    ({ c with slot := x, cnt := n } : Cfg6).th = c.th := by
  funext t; cases t <;> rfl

theorem expectedRes_usable (rv : LookRes) (c0 : Cfg6) (e : Entry6)
    (hs : c0.slot = some e) (hd : e.done = true) (he : e.expired = false) :
    expectedRes rv c0 = e.val := by
  simp [expectedRes, hs, hd, he]

theorem expectedRes_not_usable (rv : LookRes) (c0 : Cfg6) (hu : ¬ usable c0.slot) :
    expectedRes rv c0 = rv := by
  unfold expectedRes usable at *
  cases hs : c0.slot with
  | none => rfl
  | some e =>
    rw [hs] at hu
    simp only
    rw [if_neg (by simpa using hu)]

/-- Inductive invariant of the race, relative to the initial configuration. -/
structure Inv (rv : LookRes) (c0 c : Cfg6) : Prop where
  cnt_le : c.cnt ≤ 1
  cnt_slot : c.cnt = 1 → c.slot = some { done := true, val := rv, expired := false }
  resolving_slot : ∀ t, c.th t = .resolving → ∃ e, c.slot = some e ∧ e.done = false
  one_resolving : ∀ t t', t ≠ t' → c.th t = .resolving → c.th t' ≠ .resolving
  done_res : ∀ t r, c.th t = .done r → r = expectedRes rv c0
  slot_inv : c.slot = c0.slot ∨
    (¬ usable c0.slot ∧ ((∃ e, c.slot = some e ∧ e.done = false) ∨
      c.slot = some { done := true, val := rv, expired := false }))
  usable_quiet : usable c0.slot → ∀ t, c.th t ≠ .waiting ∧ c.th t ≠ .resolving
  waiting_slot : ∀ t, c.th t = .waiting → ((∃ e, c.slot = some e ∧ e.done = false) ∨
    c.slot = some { done := true, val := rv, expired := false })

theorem not_usable_of_stale (s : Option Entry6) (hs : staleSlot s) : ¬ usable s := by
  cases s with
  | none => simp [usable]
  | some e =>
    obtain ⟨h1, h2⟩ := hs
    simp [usable, h1, h2]

theorem inv_init (rv : LookRes) (c0 : Cfg6)
    (ha : c0.thA = .start) (hb : c0.thB = .start) (hc : c0.cnt = 0) : Inv rv c0 c0 := by
  constructor
  · omega
  · intro h; omega
  · intro t h; cases t <;> simp [Cfg6.th, ha, hb] at h
  · intro t t' _ h; cases t <;> simp [Cfg6.th, ha, hb] at h
  · intro t r h; cases t <;> simp [Cfg6.th, ha, hb] at h
  · exact Or.inl rfl
  · intro _ t; cases t <;> simp [Cfg6.th, ha, hb]
  · intro t h; cases t <;> simp [Cfg6.th, ha, hb] at h

theorem inv_step (rv : LookRes) (c0 c c' : Cfg6) (hi : Inv rv c0 c) (hs : Step rv c c') :
    Inv rv c0 c' := by
  cases hs with
  | hit t e hth hslot hdone hexp =>
    have hval : e.val = expectedRes rv c0 := by
      rcases hi.slot_inv with hseq | ⟨hu, hcase⟩
      · exact (expectedRes_usable rv c0 e (hseq ▸ hslot) hdone hexp).symm
      · rcases hcase with ⟨e2, he2, hnd⟩ | hres
        · rw [hslot] at he2
          injection he2 with he2
          rw [← he2] at hnd
          rw [hdone] at hnd
          cases hnd
        · rw [hslot] at hres
          injection hres with hres
          rw [hres]
          exact (expectedRes_not_usable rv c0 hu).symm
    constructor
    · rw [cnt_setTh]; exact hi.cnt_le
    · rw [cnt_setTh, slot_setTh]; exact hi.cnt_slot
    · intro t' h
      rw [th_setTh] at h
      rw [slot_setTh]
      by_cases ht : t' = t
      · rw [if_pos ht] at h; cases h
      · rw [if_neg ht] at h; exact hi.resolving_slot t' h
    · intro t1 t2 hne h1 h2
      rw [th_setTh] at h1 h2
      by_cases ht1 : t1 = t
      · rw [if_pos ht1] at h1; cases h1
      · rw [if_neg ht1] at h1
        by_cases ht2 : t2 = t
        · rw [if_pos ht2] at h2; cases h2
        · rw [if_neg ht2] at h2; exact hi.one_resolving t1 t2 hne h1 h2
    · intro t' r h
      rw [th_setTh] at h
      by_cases ht : t' = t
      · rw [if_pos ht] at h
        injection h with h
        rw [← h, hval]
      · rw [if_neg ht] at h; exact hi.done_res t' r h
    · rw [slot_setTh]; exact hi.slot_inv
    · intro hu t'
      rw [th_setTh]
      by_cases ht : t' = t
      · rw [if_pos ht]; exact ⟨by simp, by simp⟩
      · rw [if_neg ht]; exact hi.usable_quiet hu t'
    · intro t' h
      rw [th_setTh] at h
      rw [slot_setTh]
      by_cases ht : t' = t
      · rw [if_pos ht] at h; cases h
      · rw [if_neg ht] at h; exact hi.waiting_slot t' h
  | waitOn t e hth hslot hnd =>
    constructor
    · rw [cnt_setTh]; exact hi.cnt_le
    · rw [cnt_setTh, slot_setTh]; exact hi.cnt_slot
    · intro t' h
      rw [th_setTh] at h
      rw [slot_setTh]
      by_cases ht : t' = t
      · rw [if_pos ht] at h; cases h
      · rw [if_neg ht] at h; exact hi.resolving_slot t' h
    · intro t1 t2 hne h1 h2
      rw [th_setTh] at h1 h2
      by_cases ht1 : t1 = t
      · rw [if_pos ht1] at h1; cases h1
      · rw [if_neg ht1] at h1
        by_cases ht2 : t2 = t
        · rw [if_pos ht2] at h2; cases h2
        · rw [if_neg ht2] at h2; exact hi.one_resolving t1 t2 hne h1 h2
    · intro t' r h
      rw [th_setTh] at h
      by_cases ht : t' = t
      · rw [if_pos ht] at h; cases h
      · rw [if_neg ht] at h; exact hi.done_res t' r h
    · rw [slot_setTh]; exact hi.slot_inv
    · intro hu t'
      exfalso
      rcases hi.slot_inv with hseq | ⟨hu', _⟩
      · rw [hseq] at hslot
        rw [hslot] at hu
        exact absurd hu.1 (by rw [hnd]; simp)
      · exact hu' hu
    · intro t' h
      rw [slot_setTh]
      exact Or.inl ⟨e, hslot, hnd⟩
  | install t hth hstale =>
    have hnu : ¬ usable c0.slot := by
      rcases hi.slot_inv with hseq | ⟨hu', _⟩
      · rw [← hseq]; exact not_usable_of_stale _ hstale
      · exact hu'
    have hnores : ∀ t', c.th t' ≠ .resolving := by
      intro t' h
      obtain ⟨e2, hsl2, hnd2⟩ := hi.resolving_slot t' h
      rw [hsl2] at hstale
      rw [hstale.1] at hnd2
      cases hnd2
    constructor
    · rw [show ({ c.setTh t .resolving with
          slot := some { done := false, val := default, expired := false } } : Cfg6).cnt
          = c.cnt from by cases t <;> rfl]
      exact hi.cnt_le
    · intro h
      exfalso
      rw [show ({ c.setTh t .resolving with
          slot := some { done := false, val := default, expired := false } } : Cfg6).cnt
          = c.cnt from by cases t <;> rfl] at h
      have := hi.cnt_slot h
      rw [this] at hstale
      obtain ⟨_, h2⟩ := hstale
      cases h2
    · intro t' _
      exact ⟨_, rfl, rfl⟩
    · intro t1 t2 hne h1 h2
      rw [show ({ c.setTh t .resolving with
          slot := some { done := false, val := default, expired := false } } : Cfg6).th
          = (c.setTh t .resolving).th from th_with_slot _ _] at h1 h2
      rw [th_setTh] at h1 h2
      by_cases ht1 : t1 = t
      · by_cases ht2 : t2 = t
        · exact hne (ht1.trans ht2.symm)
        · rw [if_neg ht2] at h2; exact hnores t2 h2
      · rw [if_neg ht1] at h1; exact hnores t1 h1
    · intro t' r h
      rw [show ({ c.setTh t .resolving with
          slot := some { done := false, val := default, expired := false } } : Cfg6).th
          = (c.setTh t .resolving).th from th_with_slot _ _] at h
      rw [th_setTh] at h
      by_cases ht : t' = t
      · rw [if_pos ht] at h; cases h
      · rw [if_neg ht] at h; exact hi.done_res t' r h
    · exact Or.inr ⟨hnu, Or.inl ⟨_, rfl, rfl⟩⟩
    · intro hu; exact absurd hu hnu
    · intro t' _
      exact Or.inl ⟨_, rfl, rfl⟩
  | resolve t hth =>
    obtain ⟨e, hslot, hnd⟩ := hi.resolving_slot t hth
    have hnu : ¬ usable c0.slot := by
      rcases hi.slot_inv with hseq | ⟨hu', _⟩
      · rw [← hseq, hslot]
        intro hu
        simp [usable, hnd] at hu
      · exact hu'
    have hcnt0 : c.cnt = 0 := by
      rcases Nat.lt_or_ge c.cnt 1 with h | h
      · omega
      · exfalso
        have h1 : c.cnt = 1 := le_antisymm hi.cnt_le h
        have := hi.cnt_slot h1
        rw [hslot] at this
        injection this with this
        rw [this] at hnd
        cases hnd
    constructor
    · rw [show ({ c.setTh t (.done rv) with
          slot := some { done := true, val := rv, expired := false },
          cnt := c.cnt + 1 } : Cfg6).cnt = c.cnt + 1 from by cases t <;> rfl]
      omega
    · intro _; rfl
    · intro t' h
      rw [show ({ c.setTh t (.done rv) with
          slot := some { done := true, val := rv, expired := false },
          cnt := c.cnt + 1 } : Cfg6).th = (c.setTh t (.done rv)).th from
          th_with_slot_cnt _ _ _] at h
      rw [th_setTh] at h
      by_cases ht : t' = t
      · rw [if_pos ht] at h; cases h
      · rw [if_neg ht] at h
        exact absurd h (hi.one_resolving t t' (fun he => ht he.symm) hth)
    · intro t1 t2 hne h1 h2
      rw [show ({ c.setTh t (.done rv) with
          slot := some { done := true, val := rv, expired := false },
          cnt := c.cnt + 1 } : Cfg6).th = (c.setTh t (.done rv)).th from
          th_with_slot_cnt _ _ _] at h1 h2
      rw [th_setTh] at h1 h2
      by_cases ht1 : t1 = t
      · rw [if_pos ht1] at h1; cases h1
      · rw [if_neg ht1] at h1
        exact absurd h1 (hi.one_resolving t t1 (fun he => ht1 he.symm) hth)
    · intro t' r h
      rw [show ({ c.setTh t (.done rv) with
          slot := some { done := true, val := rv, expired := false },
          cnt := c.cnt + 1 } : Cfg6).th = (c.setTh t (.done rv)).th from
          th_with_slot_cnt _ _ _] at h
      rw [th_setTh] at h
      by_cases ht : t' = t
      · rw [if_pos ht] at h
        injection h with h
        rw [← h]
        exact (expectedRes_not_usable rv c0 hnu).symm
      · rw [if_neg ht] at h; exact hi.done_res t' r h
    · exact Or.inr ⟨hnu, Or.inr rfl⟩
    · intro hu
      exact absurd hth ((hi.usable_quiet hu t).2)
    · intro t' h
      exact Or.inr rfl
  | wake t e hth hslot hdone =>
    have hnu : ¬ usable c0.slot := fun hu => (hi.usable_quiet hu t).1 hth
    have hval : e.val = expectedRes rv c0 := by
      rcases hi.waiting_slot t hth with ⟨e2, hsl2, hnd2⟩ | hres
      · rw [hslot] at hsl2
        injection hsl2 with hsl2
        rw [← hsl2] at hnd2
        rw [hdone] at hnd2
        cases hnd2
      · rw [hslot] at hres
        injection hres with hres
        rw [hres]
        exact (expectedRes_not_usable rv c0 hnu).symm
    constructor
    · rw [cnt_setTh]; exact hi.cnt_le
    · rw [cnt_setTh, slot_setTh]; exact hi.cnt_slot
    · intro t' h
      rw [th_setTh] at h
      rw [slot_setTh]
      by_cases ht : t' = t
      · rw [if_pos ht] at h; cases h
      · rw [if_neg ht] at h; exact hi.resolving_slot t' h
    · intro t1 t2 hne h1 h2
      rw [th_setTh] at h1 h2
      by_cases ht1 : t1 = t
      · rw [if_pos ht1] at h1; cases h1
      · rw [if_neg ht1] at h1
        by_cases ht2 : t2 = t
        · rw [if_pos ht2] at h2; cases h2
        · rw [if_neg ht2] at h2; exact hi.one_resolving t1 t2 hne h1 h2
    · intro t' r h
      rw [th_setTh] at h
      by_cases ht : t' = t
      · rw [if_pos ht] at h
        injection h with h
        rw [← h, hval]
      · rw [if_neg ht] at h; exact hi.done_res t' r h
    · rw [slot_setTh]; exact hi.slot_inv
    · intro hu t'
      rw [th_setTh]
      by_cases ht : t' = t
      · rw [if_pos ht]; exact ⟨by simp, by simp⟩
      · rw [if_neg ht]; exact hi.usable_quiet hu t'
    · intro t' h
      rw [th_setTh] at h
      rw [slot_setTh]
      by_cases ht : t' = t
      · rw [if_pos ht] at h; cases h
      · rw [if_neg ht] at h; exact hi.waiting_slot t' h

theorem inv_reach (rv : LookRes) (c0 c : Cfg6)
    (ha : c0.thA = .start) (hb : c0.thB = .start) (hc : c0.cnt = 0)
    (hr : Reach rv c0 c) : Inv rv c0 c := by
  induction hr with
  | refl => exact inv_init rv c0 ha hb hc
  | tail _ hstep ih => exact inv_step rv c0 _ _ ih hstep

end DnsFlight

/-! SMTP connection pool (internal/smtppool/pool.go) and SMTP checker
(check/smtp.go).

The transport is scripted: the injected dial function returns the list of
response lines the server will produce on that connection (each line as
delivered by ReadString, including its terminator), and writes are collected.
The pool state carries the per-host idle stacks (top of stack at the end of
the list, matching the append/LIFO walk of pool.go), the closed flag, and an
invocation counter for the injected dial function.  Timestamps are Nat. -/

namespace SmtpPool

/-- One pooled connection: the unread remainder of the scripted server
response stream, the creation instant, and the use counter (conn of pool.go;
the buffered reader and writer are the script and the write log). -/
structure SConn where
  lines : List String
  createdAt : Nat
  uses : Nat
deriving Repr, DecidableEq, Inhabited

/-- Pool configuration, after New of pool.go applied its defaults. -/
structure PoolConfig where
  HeloDomain : String
  MailFrom : String
  ConnectTimeout : Nat
  CommandTimeout : Nat
  Port : String
  MaxConnsPerHost : Nat
  MaxUsesPerConn : Nat
  MaxConnAge : Nat
deriving Repr, DecidableEq

/-- New of pool.go: zero (Go non-positive) limits fall back to the defaults
MaxConnsPerHost 3, MaxUsesPerConn 100, MaxConnAge 5 minutes. -/
def newPool (cfg : PoolConfig) : PoolConfig :=
  { cfg with
    MaxConnsPerHost := if cfg.MaxConnsPerHost = 0 then 3 else cfg.MaxConnsPerHost
    MaxUsesPerConn := if cfg.MaxUsesPerConn = 0 then 100 else cfg.MaxUsesPerConn
    MaxConnAge := if cfg.MaxConnAge = 0 then 300000000000 else cfg.MaxConnAge }

/-- Pool state: host → idle stack, closed flag, dial counter. -/
structure PoolSt where
  hosts : List (String × List SConn)
  closed : Bool
  dials : Nat
deriving Repr, DecidableEq, Inhabited

/-- Idle stack of a host (absent key is the empty stack). -/
def lookupHost (hs : List (String × List SConn)) (host : String) : List SConn :=
  match hs.find? (fun p => p.1 == host) with
  | some p => p.2
  | none => []

/-- Store a host's idle stack. -/
def setHost (hs : List (String × List SConn)) (host : String) (v : List SConn) :
    List (String × List SConn) :=
  (host, v) :: hs.filter (fun p => !(p.1 == host))

/-- CR and LF. -/
def crChar : Char := Char.ofNat 13

def lfChar : Char := Char.ofNat 10

/-- CR-LF pair appended to every command. -/
def crlf : String := String.mk [crChar, lfChar]

/-- Go strings.TrimRight(line, CRLF): drop trailing CR and LF characters. -/
def trimRightCRLF (s : String) : String :=
  String.mk ((s.data.reverse.dropWhile (fun c => c == crChar || c == lfChar)).reverse)

/-- Sign-and-digits integer scan of fmt.Sscanf with the d verb: optional
leading spaces, optional sign, at least one digit. -/
def goScanInt (s : String) : Option Int :=
  let cs := s.data.dropWhile (fun c => c == ' ')
  let p : Bool × List Char :=
    match cs with
    | c :: rest => if c = '-' then (true, rest) else if c = '+' then (false, rest) else (false, cs)
    | [] => (false, [])
  let digits := p.2.takeWhile Char.isDigit
  if digits.isEmpty then none
  else
    let n : Nat := digits.foldl (fun acc c => acc * 10 + (c.toNat - 48)) 0
    some (if p.1 then -(n : Int) else (n : Int))

/-- Go strings.Join(lines, sep). -/
def joinSep (sep : String) : List String → String
  | [] => ""
  | [l] => l
  | l :: rest => l ++ sep ++ joinSep sep rest

/-- Loop of readResponse of pool.go: consume lines until one whose 4th
character is not a dash; parse the 3-digit code of that last line; return the
code, the joined text, and the unread remainder of the stream. -/
def readRespLoop (acc : List String) : List String → Except String (Int × String × List String)
  | [] => .error "read SMTP response: EOF"
  | l :: rest =>
    let line := trimRightCRLF l
    if line.data.length < 3 then .error "SMTP response line too short"
    else
      let acc2 := acc ++ [line]
      if line.data.length < 4 ∨ line.data.getD 3 ' ' ≠ '-' then
        match goScanInt (String.mk (line.data.take 3)) with
        | some code => .ok (code, joinSep " | " acc2, rest)
        | none => .error "invalid SMTP response code"
      else readRespLoop acc2 rest

/-- readResponse of pool.go over a scripted line stream. -/
def readResponse (lines : List String) : Except String (Int × String × List String) :=
  readRespLoop [] lines

/-- Outcome of one SMTP conversation: result (MAIL FROM or RCPT TO code and
message, or an error), the connection afterwards, and the commands written. -/
structure ConvOut where
  res : Except String (Int × String)
  conn : SConn
  writes : List String
deriving Repr

/-- MAIL FROM / RCPT TO tail of doCheck of pool.go: a MAIL FROM 5xx is
surfaced as the result without an error and without incrementing uses; a MAIL
FROM 4xx is a transient error; the RCPT TO reply is returned as the result,
whatever its code, with uses incremented. -/
def mailAndRcpt (cfg : PoolConfig) (c : SConn) (email : String) (ws : List String) : ConvOut :=
  let w2 := "MAIL FROM:<" ++ cfg.MailFrom ++ ">" ++ crlf
  match readResponse c.lines with
  | .error e => { res := .error ("MAIL FROM failed: " ++ e), conn := c, writes := ws ++ [w2] }
  | .ok (mc, mm, r1) =>
    if mc ≥ 500 then
      { res := .ok (mc, mm), conn := { c with lines := r1 }, writes := ws ++ [w2] }
    else if mc ≥ 400 then
      { res := .error ("MAIL FROM temporary failure: " ++ mm),
        conn := { c with lines := r1 }, writes := ws ++ [w2] }
    else
      let w3 := "RCPT TO:<" ++ email ++ ">" ++ crlf
      match readResponse r1 with
      | .error e =>
        { res := .error ("RCPT TO failed: " ++ e),
          conn := { c with lines := r1 }, writes := ws ++ [w2, w3] }
      | .ok (tc, tm, r2) =>
        { res := .ok (tc, tm),
          conn := { c with lines := r2, uses := c.uses + 1 }, writes := ws ++ [w2, w3] }

/-- doCheck of pool.go: banner and EHLO on a new connection, RSET on a reused
one, then MAIL FROM and RCPT TO (the deadline never fires in the scripted
model). -/
def doCheck (cfg : PoolConfig) (c : SConn) (email : String) (isNew : Bool) : ConvOut :=
  if isNew then
    match readResponse c.lines with
    | .error e => { res := .error ("read banner: " ++ e), conn := c, writes := [] }
    | .ok (bc, bm, r1) =>
      if bc ≥ 500 then
        { res := .error ("server rejected connection: " ++ toString bc ++ " " ++ bm),
          conn := { c with lines := r1 }, writes := [] }
      else
        let w1 := "EHLO " ++ cfg.HeloDomain ++ crlf
        match readResponse r1 with
        | .error e =>
          { res := .error ("EHLO failed: " ++ e), conn := { c with lines := r1 }, writes := [w1] }
        | .ok (ec, em, r2) =>
          if ec ≥ 400 then
            { res := .error ("EHLO rejected: " ++ toString ec ++ " " ++ em),
              conn := { c with lines := r2 }, writes := [w1] }
          else mailAndRcpt cfg { c with lines := r2 } email [w1]
  else
    let w1 := "RSET" ++ crlf
    match readResponse c.lines with
    | .error e => { res := .error ("RSET failed: " ++ e), conn := c, writes := [w1] }
    | .ok (rc, rm, r1) =>
      if rc ≥ 400 then
        { res := .error ("RSET rejected: " ++ toString rc ++ " " ++ rm),
          conn := { c with lines := r1 }, writes := [w1] }
      else mailAndRcpt cfg { c with lines := r1 } email [w1]

/-- LIFO walk of get of pool.go over the stack in top-first order: worn-out or
aged-out connections are discarded (best-effort QUIT, close), the first
reusable one is taken. -/
def takeFromTop (cfg : PoolConfig) (now : Nat) : List SConn → Option SConn × List SConn
  | [] => (none, [])
  | c :: rest =>
    if c.uses ≥ cfg.MaxUsesPerConn ∨ now - c.createdAt > cfg.MaxConnAge then
      takeFromTop cfg now rest
    else (some c, rest)

/-- Outcome of get of pool.go: the connection (with its is-new flag) or an
error, plus the pool state. -/
structure GetOut where
  res : Except String (SConn × Bool)
  st : PoolSt
deriving Repr

/-- get of pool.go: fail when closed; otherwise take a reusable pooled
connection (LIFO), or dial a new one (the injected dial returns the scripted
response stream of the new transport). -/
def getConn (cfg : PoolConfig) (dialF : String → Except String (List String)) (now : Nat)
    (st : PoolSt) (host : String) : GetOut :=
  if st.closed then { res := .error "smtppool: pool is closed", st := st }
  else
    let stack := lookupHost st.hosts host
    match takeFromTop cfg now stack.reverse with
    | (some c, restTop) =>
      { res := .ok (c, false), st := { st with hosts := setHost st.hosts host restTop.reverse } }
    | (none, _) =>
      let st1 : PoolSt := { st with hosts := setHost st.hosts host [] }
      match dialF host with
      | .error e =>
        { res := .error ("connect to " ++ host ++ ":" ++ cfg.Port ++ ": " ++ e), st := st1 }
      | .ok script =>
        { res := .ok ({ lines := script, createdAt := now, uses := 0 }, true),
          st := { st1 with dials := st1.dials + 1 } }

/-- put of pool.go: drop the connection when the pool is closed or the host's
stack is full, otherwise push it. -/
def putConn (cfg : PoolConfig) (st : PoolSt) (host : String) (c : SConn) : PoolSt :=
  if st.closed ∨ (lookupHost st.hosts host).length ≥ cfg.MaxConnsPerHost then st
  else { st with hosts := setHost st.hosts host (lookupHost st.hosts host ++ [c]) }

/-- Outcome of CheckRCPT: result, pool state, written commands. -/
structure RcptOut where
  res : Except String (Int × String)
  st : PoolSt
  writes : List String
deriving Repr

/-- CheckRCPT of pool.go: get, converse, and on success return the connection
to the pool; on any error the connection is discarded (closed, not
returned). -/
def checkRCPT (cfg : PoolConfig) (dialF : String → Except String (List String)) (now : Nat)
    (st : PoolSt) (host : String) (email : String) : RcptOut :=
  match getConn cfg dialF now st host with
  | { res := .error e, st := st1 } => { res := .error e, st := st1, writes := [] }
  | { res := .ok (c, isNew), st := st1 } =>
    let out := doCheck cfg c email isNew
    match out.res with
    | .error e => { res := .error e, st := st1, writes := out.writes }
    | .ok r => { res := .ok r, st := putConn cfg st1 host out.conn, writes := out.writes }

/-! SMTP checker (check/smtp.go). -/

/-- MX record value, as the checker sees it from the DNS cache. -/
structure MXv where
  host : String
  pref : Nat
deriving Repr, DecidableEq, Inhabited

/-- SMTPConfig of check/smtp.go (MaxMXHosts is a Go int). -/
structure SMTPCfg where
  HeloDomain : String
  MailFrom : String
  MaxMXHosts : Int
deriving Repr, DecidableEq

/-- Outcome of the checker loop: the check result, the pool state afterwards,
and how many CheckRCPT attempts were made. -/
structure LoopOut where
  cr : CheckResult
  st : PoolSt
  attempts : Nat
deriving Repr, DecidableEq

/-- MX loop of SMTPChecker.Check: per host, a transport error or a 4xx reply
is remembered and the next host tried; a 5xx reply stops with a failing result
carrying the code; a sub-400 reply stops with a passing result.  The
cancellation check between attempts never fires in this sequential model. -/
def smtpLoop (cfg : SMTPCfg) (pcfg : PoolConfig) (dialF : String → Except String (List String))
    (now : Nat) (email : String) :
    List MXv → PoolSt → Option String → LoopOut
  | [], st, lastErr =>
    { cr := { level := "smtp", passed := false,
              details := "SMTP probe failed on all MX hosts: " ++ lastErr.getD "<nil>" },
      st := st, attempts := 0 }
  | mx :: rest, st, _lastErr =>
    let host := trimDotStr mx.host
    match checkRCPT pcfg dialF now st host email with
    | { res := .error e, st := st1, writes := _ } =>
      let o := smtpLoop cfg pcfg dialF now email rest st1 (some e)
      { cr := o.cr, st := o.st, attempts := o.attempts + 1 }
    | { res := .ok (code, msg), st := st1, writes := _ } =>
      if code ≥ 500 then
        { cr := { level := "smtp", passed := false, details := "RCPT rejected: " ++ msg,
                  mxHost := host, smtpCode := code },
          st := st1, attempts := 1 }
      else if code ≥ 400 then
        let o := smtpLoop cfg pcfg dialF now email rest st1
          (some ("temporary failure " ++ toString code ++ ": " ++ msg))
        { cr := o.cr, st := o.st, attempts := o.attempts + 1 }
      else
        { cr := { level := "smtp", passed := true, details := "RCPT TO accepted",
                  mxHost := host, smtpCode := code },
          st := st1, attempts := 1 }

/-- Comparison the checker sorts MX records with (sort.Slice by Pref
ascending; modelled by insertionSort — only the ordering matters to the
claims). -/
def sortMX (l : List MXv) : List MXv :=
  List.insertionSort (fun a b => a.pref ≤ b.pref) l

/-- SMTPChecker.Check of check/smtp.go: gate on Valid, cached MX lookup
(injected), sort by preference, truncate to MaxMXHosts (non-positive means
all), iterate. -/
def smtpCheck (cfg : SMTPCfg) (pcfg : PoolConfig)
    (dialF : String → Except String (List String)) (now : Nat)
    (lookup : String → Except String (List MXv)) (st : PoolSt) (email : EmailP) : LoopOut :=
  if !email.Valid then
    { cr := { level := "smtp", passed := false, details := "skipped: invalid email" },
      st := st, attempts := 0 }
  else
    match lookup email.Domain with
    | .error e =>
      { cr := { level := "smtp", passed := false, details := "MX lookup failed: " ++ e },
        st := st, attempts := 0 }
    | .ok recs =>
      if recs.length = 0 then
        { cr := { level := "smtp", passed := false, details := "no MX records found" },
          st := st, attempts := 0 }
      else
        let sorted := sortMX recs
        let maxHosts : Nat :=
          if cfg.MaxMXHosts ≤ 0 ∨ cfg.MaxMXHosts > (sorted.length : Int) then sorted.length
          else cfg.MaxMXHosts.toNat
        smtpLoop cfg pcfg dialF now email.Raw (sorted.take maxHosts) st none

theorem lookupHost_setHost_self (hs : List (String × List SConn)) (host : String)
    (v : List SConn) : lookupHost (setHost hs host v) host = v := by
  unfold lookupHost setHost
  rw [List.find?_cons_of_pos _ (by simp)]

theorem putConn_dials (cfg : PoolConfig) (st : PoolSt) (host : String) (c : SConn) :
    (putConn cfg st host c).dials = st.dials := by
  unfold putConn; split <;> rfl

theorem putConn_closed (cfg : PoolConfig) (st : PoolSt) (host : String) (c : SConn) :
    (putConn cfg st host c).closed = st.closed := by
  unfold putConn; split <;> rfl

theorem mailAndRcpt_conn (cfg : PoolConfig) (c : SConn) (email : String) (ws : List String) :
    (mailAndRcpt cfg c email ws).conn.uses ≤ c.uses + 1 ∧
    (mailAndRcpt cfg c email ws).conn.createdAt = c.createdAt := by
  unfold mailAndRcpt
  cases h1 : readResponse c.lines with
  | error e => simp
  | ok v =>
    obtain ⟨mc, mm, r1⟩ := v
    simp only
    by_cases h5 : mc ≥ 500
    · rw [if_pos h5]; simp
    · rw [if_neg h5]
      by_cases h4 : mc ≥ 400
      · rw [if_pos h4]; simp
      · rw [if_neg h4]
        cases h2 : readResponse r1 with
        | error e => simp
        | ok w =>
          obtain ⟨tc, tm, r2⟩ := w
          simp

theorem mailAndRcpt_writes_head (cfg : PoolConfig) (c : SConn) (email : String)
    (w : String) (ws : List String) :
    (mailAndRcpt cfg c email (w :: ws)).writes.head? = some w := by
  unfold mailAndRcpt
  cases h1 : readResponse c.lines with
  | error e => simp
  | ok v =>
    obtain ⟨mc, mm, r1⟩ := v
    simp only
    by_cases h5 : mc ≥ 500
    · rw [if_pos h5]; simp
    · rw [if_neg h5]
      by_cases h4 : mc ≥ 400
      · rw [if_pos h4]; simp
      · rw [if_neg h4]
        cases h2 : readResponse r1 with
        | error e => simp
        | ok w2 =>
          obtain ⟨tc, tm, r2⟩ := w2
          simp

theorem doCheck_conn (cfg : PoolConfig) (c : SConn) (email : String) (isNew : Bool) :
    (doCheck cfg c email isNew).conn.uses ≤ c.uses + 1 ∧
    (doCheck cfg c email isNew).conn.createdAt = c.createdAt := by
  unfold doCheck
  cases isNew with
  | true =>
    simp only [if_pos]
    cases h1 : readResponse c.lines with
    | error e => simp
    | ok v =>
      obtain ⟨bc, bm, r1⟩ := v
      simp only
      by_cases h5 : bc ≥ 500
      · rw [if_pos h5]; simp
      · rw [if_neg h5]
        cases h2 : readResponse r1 with
        | error e => simp
        | ok w =>
          obtain ⟨ec, em, r2⟩ := w
          simp only
          by_cases h4 : ec ≥ 400
          · rw [if_pos h4]; simp
          · rw [if_neg h4]
            exact mailAndRcpt_conn cfg { c with lines := r2 } email _
  | false =>
    simp only [Bool.false_eq_true, if_false]
    cases h1 : readResponse c.lines with
    | error e => simp
    | ok v =>
      obtain ⟨rc, rm, r1⟩ := v
      simp only
      by_cases h4 : rc ≥ 400
      · rw [if_pos h4]; simp
      · rw [if_neg h4]
        exact mailAndRcpt_conn cfg { c with lines := r1 } email _

theorem doCheck_reused_writes_head (cfg : PoolConfig) (c : SConn) (email : String) :
    (doCheck cfg c email false).writes.head? = some ("RSET" ++ crlf) := by
  unfold doCheck
  simp only [Bool.false_eq_true, if_false]
  cases h1 : readResponse c.lines with
  | error e => simp
  | ok v =>
    obtain ⟨rc, rm, r1⟩ := v
    simp only
    by_cases h4 : rc ≥ 400
    · rw [if_pos h4]; simp
    · rw [if_neg h4]
      exact mailAndRcpt_writes_head cfg { c with lines := r1 } email _ _

theorem checkRCPT_fresh_dialErr (cfg : PoolConfig)
    (dialF : String → Except String (List String)) (now : Nat) (st : PoolSt)
    (host email e : String)
    (hcl : st.closed = false) (hfresh : lookupHost st.hosts host = [])
    (hdial : dialF host = .error e) :
    checkRCPT cfg dialF now st host email =
      { res := .error ("connect to " ++ host ++ ":" ++ cfg.Port ++ ": " ++ e),
        st := { st with hosts := setHost st.hosts host [] }, writes := [] } := by
  unfold checkRCPT getConn
  simp only [hcl, hfresh, hdial, List.reverse_nil, takeFromTop, Bool.false_eq_true, if_false]

theorem checkRCPT_fresh_doErr (cfg : PoolConfig)
    (dialF : String → Except String (List String)) (now : Nat) (st : PoolSt)
    (host email e : String) (script : List String)
    (hcl : st.closed = false) (hfresh : lookupHost st.hosts host = [])
    (hdial : dialF host = .ok script)
    (hdo : (doCheck cfg { lines := script, createdAt := now, uses := 0 } email true).res
      = .error e) :
    checkRCPT cfg dialF now st host email =
      { res := .error e,
        st := { st with hosts := setHost st.hosts host [], dials := st.dials + 1 },
        writes := (doCheck cfg { lines := script, createdAt := now, uses := 0 } email true).writes } := by
  unfold checkRCPT getConn
  simp only [hcl, hfresh, hdial, List.reverse_nil, takeFromTop, Bool.false_eq_true, if_false, hdo]

theorem checkRCPT_fresh_ok (cfg : PoolConfig)
    (dialF : String → Except String (List String)) (now : Nat) (st : PoolSt)
    (host email : String) (script : List String) (r : Int × String)
    (hcl : st.closed = false) (hfresh : lookupHost st.hosts host = [])
    (hdial : dialF host = .ok script)
    (hdo : (doCheck cfg { lines := script, createdAt := now, uses := 0 } email true).res
      = .ok r) :
    checkRCPT cfg dialF now st host email =
      { res := .ok r,
        st := putConn cfg { st with hosts := setHost st.hosts host [], dials := st.dials + 1 }
          host (doCheck cfg { lines := script, createdAt := now, uses := 0 } email true).conn,
        writes := (doCheck cfg { lines := script, createdAt := now, uses := 0 } email true).writes } := by
  unfold checkRCPT getConn
  simp only [hcl, hfresh, hdial, List.reverse_nil, takeFromTop, Bool.false_eq_true, if_false, hdo]

theorem checkRCPT_reuse_doErr (cfg : PoolConfig)
    (dialF : String → Except String (List String)) (now : Nat) (st : PoolSt)
    (host email e : String) (c : SConn)
    (hcl : st.closed = false) (hstack : lookupHost st.hosts host = [c])
    (huses : c.uses < cfg.MaxUsesPerConn) (hage : now - c.createdAt ≤ cfg.MaxConnAge)
    (hdo : (doCheck cfg c email false).res = .error e) :
    checkRCPT cfg dialF now st host email =
      { res := .error e, st := { st with hosts := setHost st.hosts host [] },
        writes := (doCheck cfg c email false).writes } := by
  unfold checkRCPT getConn
  simp only [hcl, hstack, List.reverse_cons, List.reverse_nil, List.nil_append, takeFromTop,
    Bool.false_eq_true, if_false, hdo]
  rw [if_neg (by omega)]
  simp [hdo]

theorem checkRCPT_reuse_ok (cfg : PoolConfig)
    (dialF : String → Except String (List String)) (now : Nat) (st : PoolSt)
    (host email : String) (c : SConn) (r : Int × String)
    (hcl : st.closed = false) (hstack : lookupHost st.hosts host = [c])
    (huses : c.uses < cfg.MaxUsesPerConn) (hage : now - c.createdAt ≤ cfg.MaxConnAge)
    (hdo : (doCheck cfg c email false).res = .ok r) :
    checkRCPT cfg dialF now st host email =
      { res := .ok r,
        st := putConn cfg { st with hosts := setHost st.hosts host [] } host
          (doCheck cfg c email false).conn,
        writes := (doCheck cfg c email false).writes } := by
  unfold checkRCPT getConn
  simp only [hcl, hstack, List.reverse_cons, List.reverse_nil, List.nil_append, takeFromTop,
    Bool.false_eq_true, if_false]
  rw [if_neg (by omega)]
  simp [hdo]

theorem mailAndRcpt_eval (cfg : PoolConfig) (c : SConn) (email : String) (ws : List String)
    (mc : Int) (mm : String) (r1 : List String) (tc : Int) (tm : String) (r2 : List String)
    (h1 : readResponse c.lines = .ok (mc, mm, r1)) (hm : mc < 400)
    (h2 : readResponse r1 = .ok (tc, tm, r2)) :
    mailAndRcpt cfg c email ws =
      { res := .ok (tc, tm), conn := { c with lines := r2, uses := c.uses + 1 },
        writes := ws ++ ["MAIL FROM:<" ++ cfg.MailFrom ++ ">" ++ crlf,
                        "RCPT TO:<" ++ email ++ ">" ++ crlf] } := by
  unfold mailAndRcpt
  rw [h1]
  simp only
  rw [if_neg (by omega), if_neg (by omega), h2]

theorem doCheck_new_eval (cfg : PoolConfig) (c : SConn) (email : String)
    (bc : Int) (bm : String) (r1 : List String) (ec : Int) (em : String) (r2 : List String)
    (mc : Int) (mm : String) (r3 : List String) (tc : Int) (tm : String) (r4 : List String)
    (hb : readResponse c.lines = .ok (bc, bm, r1)) (hbc : bc < 500)
    (he : readResponse r1 = .ok (ec, em, r2)) (hec : ec < 400)
    (hm : readResponse r2 = .ok (mc, mm, r3)) (hmc : mc < 400)
    (hr : readResponse r3 = .ok (tc, tm, r4)) :
    doCheck cfg c email true =
      { res := .ok (tc, tm), conn := { c with lines := r4, uses := c.uses + 1 },
        writes := ["EHLO " ++ cfg.HeloDomain ++ crlf,
                   "MAIL FROM:<" ++ cfg.MailFrom ++ ">" ++ crlf,
                   "RCPT TO:<" ++ email ++ ">" ++ crlf] } := by
  unfold doCheck
  rw [if_pos rfl, hb]
  simp only
  rw [if_neg (by omega), he]
  simp only
  rw [if_neg (by omega),
    mailAndRcpt_eval cfg { c with lines := r2 } email _ mc mm r3 tc tm r4 hm hmc hr]
  simp

theorem doCheck_reused_eval (cfg : PoolConfig) (c : SConn) (email : String)
    (rc : Int) (rm : String) (r1 : List String)
    (mc : Int) (mm : String) (r2 : List String) (tc : Int) (tm : String) (r3 : List String)
    (hrset : readResponse c.lines = .ok (rc, rm, r1)) (hrc : rc < 400)
    (hm : readResponse r1 = .ok (mc, mm, r2)) (hmc : mc < 400)
    (hr : readResponse r2 = .ok (tc, tm, r3)) :
    doCheck cfg c email false =
      { res := .ok (tc, tm), conn := { c with lines := r3, uses := c.uses + 1 },
        writes := ["RSET" ++ crlf,
                   "MAIL FROM:<" ++ cfg.MailFrom ++ ">" ++ crlf,
                   "RCPT TO:<" ++ email ++ ">" ++ crlf] } := by
  unfold doCheck
  rw [if_neg (by simp), hrset]
  simp only
  rw [if_neg (by omega),
    mailAndRcpt_eval cfg { c with lines := r1 } email _ mc mm r2 tc tm r3 hm hmc hr]
  simp

/-- A 5xx RCPT TO reply stops the MX loop at once: the checker returns a
failing result carrying the exact code and host, makes exactly one attempt,
and the remaining MX hosts play no part. -/
theorem smtpLoop_stop5xx (cfg : SMTPCfg) (pcfg : PoolConfig)
    (dialF : String → Except String (List String)) (now : Nat) (email : String)
    (mx : MXv) (rest : List MXv) (st st1 : PoolSt) (lastE : Option String)
    (ws : List String) (code : Int) (msg : String)
    (hck : checkRCPT pcfg dialF now st (trimDotStr mx.host) email =
      { res := .ok (code, msg), st := st1, writes := ws })
    (hcode : code ≥ 500) :
    smtpLoop cfg pcfg dialF now email (mx :: rest) st lastE =
      { cr := { level := "smtp", passed := false, details := "RCPT rejected: " ++ msg,
                mxHost := trimDotStr mx.host, smtpCode := code },
        st := st1, attempts := 1 } := by
  simp only [smtpLoop]
  rw [hck]
  simp only
  rw [if_pos hcode]

end SmtpPool

/-! Helper lemmas about typo detection (check/domain.go). -/

/-- What the typo loop guarantees relative to its accumulator: starting from an
empty accumulator (or a provider already found within the threshold), it ends
empty exactly when no provider is within the threshold, and otherwise returns
a provider within the threshold at minimal distance. -/
theorem findTypoLoop_spec (thr : Nat) (d : String) :
    ∀ (ps : List String) (bestDist : Nat) (best : String),
    d ∉ ps → "" ∉ ps →
    ((best = "" ∧ bestDist = thr + 1) ∨
      (best ≠ "" ∧ levDistance d best = bestDist ∧ bestDist ≤ thr)) →
    ((findTypoLoop thr d ps bestDist best = "" ∧
        (∀ p ∈ ps, levDistance d p > thr) ∧ best = "") ∨
     (findTypoLoop thr d ps bestDist best ≠ "" ∧
        levDistance d (findTypoLoop thr d ps bestDist best) ≤ thr ∧
        (∀ p ∈ ps, levDistance d (findTypoLoop thr d ps bestDist best) ≤ levDistance d p) ∧
        (findTypoLoop thr d ps bestDist best = best ∨ findTypoLoop thr d ps bestDist best ∈ ps) ∧
        levDistance d (findTypoLoop thr d ps bestDist best) ≤ bestDist)) := by
  intro ps
  induction ps with
  | nil =>
    intro bestDist best _ _ hacc
    simp only [findTypoLoop]
    rcases hacc with ⟨hb, hd⟩ | ⟨hb, hdist, hle⟩
    · exact Or.inl ⟨hb, by simp, hb⟩
    · exact Or.inr ⟨hb, by rw [hdist]; exact hle, by simp, by simp, le_of_eq hdist⟩
  | cons p rest ih =>
    intro bestDist best hd0 he0 hacc
    have hdp : d ≠ p := fun h => hd0 (h ▸ List.mem_cons_self _ _)
    have hdrest : d ∉ rest := fun h => hd0 (List.mem_cons_of_mem _ h)
    have hpne : p ≠ "" := fun h => he0 (h ▸ List.mem_cons_self _ _)
    have herest : "" ∉ rest := fun h => he0 (List.mem_cons_of_mem _ h)
    simp only [findTypoLoop]
    rw [if_neg hdp]
    by_cases hcase : levDistance d p ≤ thr ∧ levDistance d p < bestDist
    · rw [if_pos hcase]
      have hrec := ih (levDistance d p) p hdrest herest
        (Or.inr ⟨hpne, rfl, hcase.1⟩)
      rcases hrec with ⟨_, _, hbe⟩ | ⟨h1, h2, h3, h4, h5⟩
      · exact absurd hbe hpne
      · refine Or.inr ⟨h1, h2, ?_, ?_, by omega⟩
        · intro q hq
          rcases List.mem_cons.mp hq with rfl | hq
          · exact h5
          · exact h3 q hq
        · rcases h4 with h4 | h4
          · exact Or.inr (by rw [h4]; exact List.mem_cons_self _ _)
          · exact Or.inr (List.mem_cons_of_mem _ h4)
    · rw [if_neg hcase]
      have hrec := ih bestDist best hdrest herest hacc
      rcases hrec with ⟨h1, h2, h3⟩ | ⟨h1, h2, h3, h4, h5⟩
      · refine Or.inl ⟨h1, ?_, h3⟩
        intro q hq
        rcases List.mem_cons.mp hq with rfl | hq
        · rcases hacc with ⟨_, hbd⟩ | ⟨hbne, _, _⟩
          · subst hbd
            by_cases hle : levDistance d q ≤ thr
            · exact absurd ⟨hle, by omega⟩ hcase
            · omega
          · exact absurd h3 hbne
        · exact h2 q hq
      · refine Or.inr ⟨h1, h2, ?_, ?_, h5⟩
        · intro q hq
          rcases List.mem_cons.mp hq with rfl | hq
          · rcases Nat.lt_or_ge (levDistance d q) bestDist with hlt | hge
            · have : ¬ levDistance d q ≤ thr := fun hle => hcase ⟨hle, hlt⟩
              omega
            · omega
          · exact h3 q hq
        · rcases h4 with h4 | h4
          · exact Or.inl h4
          · exact Or.inr (List.mem_cons_of_mem _ h4)

/-- Exact provider matches yield no suggestion. -/
theorem findTypoLoop_exact (thr : Nat) (d : String) :
    ∀ (ps : List String) (bestDist : Nat) (best : String), d ∈ ps →
    findTypoLoop thr d ps bestDist best = "" := by
  intro ps
  induction ps with
  | nil => intro _ _ h; cases h
  | cons p rest ih =>
    intro bestDist best hd
    simp only [findTypoLoop]
    by_cases hdp : d = p
    · rw [if_pos hdp]
    · rw [if_neg hdp]
      have hdr : d ∈ rest := by
        rcases List.mem_cons.mp hd with h | h
        · exact absurd h hdp
        · exact h
      by_cases hcase : levDistance d p ≤ thr ∧ levDistance d p < bestDist
      · rw [if_pos hcase]; exact ih _ _ hdr
      · rw [if_neg hcase]; exact ih _ _ hdr

/-- Characterisation of findTypoSuggestion for a non-exact domain: empty
exactly when no provider is within the threshold, otherwise a provider within
the threshold at minimal Levenshtein distance. -/
theorem findTypoSuggestion_spec (providers : List String) (thr : Nat) (d : String)
    (hne : d ∉ providers) (hempty : "" ∉ providers) :
    (findTypoSuggestion providers thr d = "" →
      ∀ p ∈ providers, levDistance d p > thr) ∧
    (findTypoSuggestion providers thr d ≠ "" →
      findTypoSuggestion providers thr d ∈ providers ∧
      levDistance d (findTypoSuggestion providers thr d) ≤ thr ∧
      ∀ p ∈ providers, levDistance d (findTypoSuggestion providers thr d) ≤ levDistance d p) := by
  have hs := findTypoLoop_spec thr d providers (thr + 1) "" hne hempty (Or.inl ⟨rfl, rfl⟩)
  unfold findTypoSuggestion
  rcases hs with ⟨h1, h2, _⟩ | ⟨h1, h2, h3, h4, _⟩
  · exact ⟨fun _ => h2, fun hne2 => absurd h1 hne2⟩
  · refine ⟨fun he => absurd he h1, fun _ => ⟨?_, h2, h3⟩⟩
    rcases h4 with h4 | h4
    · exact absurd h4 h1
    · exact h4

/-- Default domain options (options.go): disposable and typo checks on,
threshold 2. -/
def defaultDomainOptions : DomainConfig :=
  { CheckDisposable := true, CheckTypos := true, TypoThreshold := 2 }

/-- The domain check passes for every valid email whose domain is not
disposable (or with the disposable check off): typo suspicion never fails. -/
theorem domainCheck_passes (disp : String → Bool) (cfg : DomainConfig) (e : EmailP)
    (hv : e.Valid = true)
    (hnd : cfg.CheckDisposable = true → disp (toLowerStr e.Domain) = false) :
    (domainCheck disp cfg e).passed = true := by
  simp only [domainCheck]
  rw [if_neg (by simp [hv])]
  rw [if_neg (fun hd => by rw [hnd hd.1] at hd; cases hd.2)]
  by_cases ht : cfg.CheckTypos = true
  · rw [if_pos ht]
    by_cases hs : findTypoSuggestion defaultKnownProviders cfg.TypoThreshold
        (toLowerStr e.DomainUnicode) ≠ ""
    · rw [if_pos hs]
    · rw [if_neg hs]
  · rw [if_neg ht]

/-- Form of the domain check's result when a typo is suspected. -/
theorem domainCheck_suggestion (disp : String → Bool) (cfg : DomainConfig) (e : EmailP)
    (hv : e.Valid = true)
    (hnd : cfg.CheckDisposable = true → disp (toLowerStr e.Domain) = false)
    (ht : cfg.CheckTypos = true)
    (hs : findTypoSuggestion defaultKnownProviders cfg.TypoThreshold
      (toLowerStr e.DomainUnicode) ≠ "") :
    domainCheck disp cfg e =
      { level := "domain", passed := true, details := "possible typo in domain",
        suggestion := findTypoSuggestion defaultKnownProviders cfg.TypoThreshold
          (toLowerStr e.DomainUnicode) } := by
  simp only [domainCheck]
  rw [if_neg (by simp [hv])]
  rw [if_neg (fun hd => by rw [hnd hd.1] at hd; cases hd.2)]
  rw [if_pos ht, if_pos hs]

/-! Helper lemmas about the syntax checker's diagnostics: no branch other than
the two RFC 5321 length gates can produce a length diagnostic. -/

/-- Diagnostic that is not one of the two length-gate messages. -/
def notLenMsg (s : String) : Prop :=
  s ≠ "email address exceeds 254 characters" ∧ s ≠ "local part exceeds 64 characters"

theorem append_char_ne (pre : String) (ch : Char) (t : String)
    (hlen : pre.length + 1 ≠ t.length) : pre ++ String.mk [ch] ≠ t := by
  intro h
  have hl := congrArg String.length h
  rw [String.length_append] at hl
  have h1 : (String.mk [ch]).length = 1 := rfl
  rw [h1] at hl
  omega

theorem localCharErr_cases (tabs : UnicodeTables) :
    ∀ cs : List Char, localCharErr tabs cs = "" ∨
      localCharErr tabs cs = "local part contains control character" ∨
      ∃ ch, localCharErr tabs cs = "local part contains invalid character: " ++ String.mk [ch] := by
  intro cs
  induction cs with
  | nil => exact Or.inl rfl
  | cons ch rest ih =>
    unfold localCharErr
    by_cases h1 : ch.val > 127
    · rw [if_pos h1]
      by_cases h2 : tabs.isControl ch = true
      · rw [if_pos h2]; exact Or.inr (Or.inl rfl)
      · rw [if_neg h2]; exact ih
    · rw [if_neg h1]
      by_cases h3 : ('a' ≤ ch ∧ ch ≤ 'z') ∨ ('A' ≤ ch ∧ ch ≤ 'Z') ∨ ('0' ≤ ch ∧ ch ≤ '9')
      · rw [if_pos h3]; exact ih
      · rw [if_neg h3]
        by_cases h4 : asciiSpecial.contains ch = true
        · rw [if_pos h4]; exact ih
        · rw [if_neg h4]; exact Or.inr (Or.inr ⟨ch, rfl⟩)

theorem validateLocal_notLen (tabs : UnicodeTables) (l : String) :
    notLenMsg (validateLocal tabs l) := by
  simp only [validateLocal]
  by_cases h1 : l = ""
  · rw [if_pos h1]; exact ⟨by decide, by decide⟩
  · rw [if_neg h1]
    by_cases h2 : (l.data.head? == some quoteChar && l.data.getLast? == some quoteChar) = true
    · rw [if_pos h2]; exact ⟨by decide, by decide⟩
    · rw [if_neg h2]
      by_cases h3 : localCharErr tabs l.data ≠ ""
      · rw [if_pos h3]
        rcases localCharErr_cases tabs l.data with he | he | ⟨ch, he⟩
        · exact absurd he h3
        · rw [he]; exact ⟨by decide, by decide⟩
        · rw [he]
          exact ⟨append_char_ne _ ch _ (by decide), append_char_ne _ ch _ (by decide)⟩
      · rw [if_neg h3]
        by_cases h4 : (l.data.head? == some '.' || l.data.getLast? == some '.') = true
        · rw [if_pos h4]; exact ⟨by decide, by decide⟩
        · rw [if_neg h4]
          by_cases h5 : hasConsecDots l.data = true
          · rw [if_pos h5]; exact ⟨by decide, by decide⟩
          · rw [if_neg h5]; exact ⟨by decide, by decide⟩

theorem oneLabelErr_notLen (tabs : UnicodeTables) (label : List Char) (e : String)
    (h : oneLabelErr tabs label = some e) : notLenMsg e := by
  unfold oneLabelErr at h
  by_cases h1 : label = []
  · rw [if_pos h1] at h
    injection h with h
    subst h
    exact ⟨by decide, by decide⟩
  · rw [if_neg h1] at h
    by_cases h2 : (String.mk label).utf8ByteSize > 63
    · rw [if_pos h2] at h
      injection h with h
      subst h
      exact ⟨by decide, by decide⟩
    · rw [if_neg h2] at h
      by_cases h3 : (label.head? == some '-' || label.getLast? == some '-') = true
      · rw [if_pos h3] at h
        injection h with h
        subst h
        exact ⟨by decide, by decide⟩
      · rw [if_neg h3] at h
        cases hf : label.find? (fun ch => !(tabs.isLetter ch || tabs.isDigit ch || ch == '-')) with
        | some ch =>
          rw [hf] at h
          injection h with h
          subst h
          exact ⟨append_char_ne _ ch _ (by decide), append_char_ne _ ch _ (by decide)⟩
        | none => rw [hf] at h; cases h

theorem labelErr_notLen (tabs : UnicodeTables) :
    ∀ (ls : List (List Char)) (e : String), labelErr tabs ls = some e → notLenMsg e := by
  intro ls
  induction ls with
  | nil => intro e h; cases h
  | cons l rest ih =>
    intro e h
    unfold labelErr at h
    cases ho : oneLabelErr tabs l with
    | some e2 =>
      rw [ho] at h
      injection h with h
      subst h
      exact oneLabelErr_notLen tabs l e2 ho
    | none => rw [ho] at h; exact ih e h

theorem validateDomain_notLen (tabs : UnicodeTables) (domain : String) :
    notLenMsg (validateDomain tabs domain) := by
  simp only [validateDomain]
  by_cases h1 : domain = ""
  · rw [if_pos h1]; exact ⟨by decide, by decide⟩
  · rw [if_neg h1]
    by_cases h2 : (domain.data.head? == some '[' && domain.data.getLast? == some ']') = true
    · rw [if_pos h2]; exact ⟨by decide, by decide⟩
    · rw [if_neg h2]
      by_cases h3 : (splitChar '.' domain.data).length < 2
      · rw [if_pos h3]; exact ⟨by decide, by decide⟩
      · rw [if_neg h3]
        cases hl : labelErr tabs (splitChar '.' domain.data) with
        | some e => exact labelErr_notLen tabs _ e hl
        | none =>
          dsimp only
          by_cases h4 : (((splitChar '.' domain.data).getLastD []).all tabs.isDigit) = true
          · rw [if_pos h4]; exact ⟨by decide, by decide⟩
          · rw [if_neg h4]; exact ⟨by decide, by decide⟩

/-- Within both byte limits, the syntax check never produces a length
diagnostic. -/
theorem synCheck_notLen (tabs : UnicodeTables) (e : EmailP)
    (hr : e.Raw ≠ "") (hv : e.Valid = true)
    (h254 : ¬ e.Raw.utf8ByteSize > 254) (h64 : ¬ e.Local.utf8ByteSize > 64) :
    notLenMsg (synCheck tabs e).details := by
  simp only [synCheck]
  rw [if_neg hr, if_neg (by simp [hv]), if_neg h254, if_neg h64]
  by_cases hq : hasQuotedLocal e.Raw = true
  · simp only [hq, Bool.not_true, Bool.false_eq_true, if_false]
    by_cases hd : validateDomain tabs e.DomainUnicode ≠ ""
    · rw [if_neg (by simp), if_pos hd]
      exact validateDomain_notLen tabs e.DomainUnicode
    · rw [if_neg (by simp), if_neg hd]
      exact ⟨by decide, by decide⟩
  · simp only [Bool.not_eq_true] at hq
    simp only [hq, Bool.not_false, if_true]
    by_cases hl : validateLocal tabs e.Local ≠ ""
    · rw [if_pos hl]
      exact validateLocal_notLen tabs e.Local
    · rw [if_neg hl]
      by_cases hd : validateDomain tabs e.DomainUnicode ≠ ""
      · rw [if_pos hd]
        exact validateDomain_notLen tabs e.DomainUnicode
      · rw [if_neg hd]
        exact ⟨by decide, by decide⟩

/-- Beyond either byte limit, the syntax check fails. -/
theorem synCheck_fail_long (tabs : UnicodeTables) (e : EmailP)
    (hr : e.Raw ≠ "") (hv : e.Valid = true)
    (hlen : e.Raw.utf8ByteSize > 254 ∨ e.Local.utf8ByteSize > 64) :
    (synCheck tabs e).passed = false := by
  simp only [synCheck]
  rw [if_neg hr, if_neg (by simp [hv])]
  by_cases h254 : e.Raw.utf8ByteSize > 254
  · rw [if_pos h254]
  · rw [if_neg h254]
    have h64 : e.Local.utf8ByteSize > 64 := by
      rcases hlen with h | h
      · exact absurd h h254
      · exact h
    rw [if_pos h64]

/-! Helper lemmas about the pipeline loops (validator.go). -/

theorem runChecksSC_append (parsed : EmailP) (cks : List Checker) :
    ∀ acc : List CheckResult,
    runChecksSC parsed cks acc =
      ((runChecksSC parsed cks []).1, acc ++ (runChecksSC parsed cks []).2) := by
  induction cks with
  | nil => intro acc; simp [runChecksSC]
  | cons c rest ih =>
    intro acc
    simp only [runChecksSC, List.nil_append]
    by_cases h : (c parsed).passed = true
    · rw [if_pos h, if_pos h, ih (acc ++ [c parsed]), ih [c parsed]]
      simp
    · rw [if_neg h, if_neg h]

theorem runChecksSC_valid_iff (parsed : EmailP) (cks : List Checker) :
    (runChecksSC parsed cks []).1 = true ↔
      ∀ cr ∈ (runChecksSC parsed cks []).2, cr.passed = true := by
  induction cks with
  | nil => simp [runChecksSC]
  | cons c rest ih =>
    simp only [runChecksSC, List.nil_append]
    by_cases h : (c parsed).passed = true
    · rw [if_pos h, runChecksSC_append parsed rest [c parsed]]
      simp only [List.singleton_append, List.mem_cons]
      constructor
      · intro hv cr hcr
        rcases hcr with rfl | hcr
        · exact h
        · exact ih.mp hv cr hcr
      · intro hall
        exact ih.mpr (fun cr hcr => hall cr (Or.inr hcr))
    · rw [if_neg h]
      simp only [List.append_nil, List.nil_append]
      constructor
      · intro hv; cases hv
      · intro hall
        exact absurd (hall (c parsed) (by simp)) h

theorem runChecksAll_decomp (parsed : EmailP) (cks : List Checker) :
    ∀ (v : Bool) (acc : List CheckResult),
    runChecksAll parsed cks v acc =
      (v && (cks.map (fun c => c parsed)).all (fun cr => cr.passed),
       acc ++ cks.map (fun c => c parsed)) := by
  induction cks with
  | nil => intro v acc; simp [runChecksAll]
  | cons c rest ih =>
    intro v acc
    simp only [runChecksAll, List.map_cons, List.all_cons]
    rw [ih]
    refine Prod.ext ?_ (by simp)
    simp only
    cases hp : (c parsed).passed <;> cases v <;> simp

theorem validateCore_valid_iff (ext : ExternalFns) (cks : List Checker) (email : String) :
    (validateCore ext cks email).Valid = true ↔
      ∀ cr ∈ (validateCore ext cks email).Checks, cr.passed = true := by
  unfold validateCore
  exact runChecksSC_valid_iff (NewEmail ext email) cks

theorem validateAllCore_valid_iff (ext : ExternalFns) (cks : List Checker) (email : String) :
    (validateAllCore ext cks email).Valid = true ↔
      ∀ cr ∈ (validateAllCore ext cks email).Checks, cr.passed = true := by
  unfold validateAllCore
  show (runChecksAll (NewEmail ext email) cks true []).1 = true ↔
    ∀ cr ∈ (runChecksAll (NewEmail ext email) cks true []).2, cr.passed = true
  rw [runChecksAll_decomp (NewEmail ext email) cks true []]
  simp [List.all_eq_true]

/-! Helper lemmas about the bulk fold (ValidateMany). -/

theorem foldl_set_length (f : Job → Result) (jobs : List Job) :
    ∀ init : List Result,
    (jobs.foldl (fun acc j => acc.set j.idx (f j)) init).length = init.length := by
  induction jobs with
  | nil => intro init; rfl
  | cons j rest ih =>
    intro init
    rw [List.foldl_cons, ih, List.length_set]

theorem foldl_set_untouched (f : Job → Result) (jobs : List Job) :
    ∀ (init : List Result) (i : Nat), (∀ j ∈ jobs, j.idx ≠ i) →
    (jobs.foldl (fun acc j => acc.set j.idx (f j)) init)[i]? = init[i]? := by
  induction jobs with
  | nil => intro init i _; rfl
  | cons j rest ih =>
    intro init i hni
    rw [List.foldl_cons, ih _ i (fun b hb => hni b (List.mem_cons_of_mem _ hb)),
      List.getElem?_set_ne (hni j (List.mem_cons_self _ _))]

theorem foldl_set_hit (f : Job → Result) (jobs : List Job) :
    ∀ init : List Result, jobs.Pairwise (fun a b => a.idx ≠ b.idx) →
    ∀ j ∈ jobs, j.idx < init.length →
    (jobs.foldl (fun acc j => acc.set j.idx (f j)) init)[j.idx]? = some (f j) := by
  induction jobs with
  | nil => intro init _ j hj; cases hj
  | cons j0 rest ih =>
    intro init hpw j hj hlt
    rw [List.foldl_cons]
    rcases List.mem_cons.mp hj with rfl | hjr
    · have hni : ∀ b ∈ rest, b.idx ≠ j.idx := by
        intro b hb he
        exact ((List.pairwise_cons.mp hpw).1 b hb) he.symm
      rw [foldl_set_untouched f rest _ _ hni, List.getElem?_set_self hlt]
    · apply ih (init.set j0.idx (f j0)) (List.pairwise_cons.mp hpw).2 j hjr
      rwa [List.length_set]

theorem enumJobs_idx_ge (l : List String) :
    ∀ base, ∀ j ∈ enumJobs base l, base ≤ j.idx := by
  induction l with
  | nil => intro base j hj; cases hj
  | cons e rest ih =>
    intro base j hj
    rcases List.mem_cons.mp hj with rfl | hj
    · exact le_refl _
    · exact le_trans (by omega) (ih (base + 1) j hj)

theorem enumJobs_pairwise (l : List String) :
    ∀ base, (enumJobs base l).Pairwise (fun a b => a.idx ≠ b.idx) := by
  induction l with
  | nil => intro base; exact List.Pairwise.nil
  | cons e rest ih =>
    intro base
    refine List.pairwise_cons.mpr ⟨?_, ih (base + 1)⟩
    intro b hb
    have := enumJobs_idx_ge rest (base + 1) b hb
    simp only
    omega

theorem enumJobs_mem (l : List String) :
    ∀ (base i : Nat) (e : String), l[i]? = some e →
    ({ idx := base + i, email := e, domain := domainKeyOf e } : Job) ∈ enumJobs base l := by
  induction l with
  | nil => intro base i e he; simp at he
  | cons x rest ih =>
    intro base i e he
    cases i with
    | zero =>
      simp only [List.getElem?_cons_zero, Option.some_inj] at he
      subst he
      simp [enumJobs]
    | succ k =>
      simp only [List.getElem?_cons_succ] at he
      have hrec := ih (base + 1) k e he
      have harith : base + (k + 1) = base + 1 + k := by omega
      rw [harith]
      exact List.mem_cons_of_mem _ hrec

theorem validateManyCore_length (ext : ExternalFns) (cks : List Checker)
    (emails : List String) :
    (validateManyCore ext cks emails).length = emails.length := by
  unfold validateManyCore
  rw [foldl_set_length, List.length_replicate]

theorem validateManyCore_index (ext : ExternalFns) (cks : List Checker)
    (emails : List String) (i : Nat) :
    (validateManyCore ext cks emails)[i]?.map Result.Email = emails[i]? := by
  unfold validateManyCore
  cases he : emails[i]? with
  | none =>
    have hlen : emails.length ≤ i := by
      by_contra hc
      push_neg at hc
      exact absurd (List.getElem?_eq_getElem hc) (by rw [he]; simp)
    rw [List.getElem?_eq_none (by rwa [foldl_set_length, List.length_replicate])]
    rfl
  | some e =>
    have hi : i < emails.length := by
      by_contra hc
      push_neg at hc
      rw [List.getElem?_eq_none hc] at he
      cases he
    have hperm := List.perm_insertionSort
      (fun a b : Job => goStrLt a.domain b.domain = true) (enumJobs 0 emails)
    have hpw : (sortJobs (enumJobs 0 emails)).Pairwise (fun a b => a.idx ≠ b.idx) :=
      (List.Perm.pairwise_iff (fun h he => h he.symm) hperm).mpr (enumJobs_pairwise emails 0)
    have hmem0 : ({ idx := 0 + i, email := e, domain := domainKeyOf e } : Job)
        ∈ enumJobs 0 emails := enumJobs_mem emails 0 i e he
    have hmem : ({ idx := 0 + i, email := e, domain := domainKeyOf e } : Job)
        ∈ sortJobs (enumJobs 0 emails) := (List.Perm.mem_iff hperm).mpr hmem0
    have hz : (({ idx := 0 + i, email := e, domain := domainKeyOf e } : Job)).idx = i := by
      simp
    have hhit := foldl_set_hit (fun j => validateCore ext cks j.email)
      (sortJobs (enumJobs 0 emails)) (List.replicate emails.length default) hpw
      _ hmem (by rw [hz, List.length_replicate]; exact hi)
    rw [hz] at hhit
    rw [hhit]
    rfl

/-! Claim theorems and witnesses. -/

/-- Concrete external functions for witnesses: an RFC 5322 parser that accepts
nothing (every input goes through the manual fallback, as net/mail does for
the inputs used below) and IDNA conversions that always fall back. -/
def extNone : ExternalFns :=
  { parseAddress := fun _ => none
    idnaToASCII := fun _ => none
    idnaToUnicode := fun _ => none }

/-- C1: with no latched configuration error, Validate and ValidateAll return a
nil top-level error and a Result whose Valid bit is true exactly when every
CheckResult in Checks passed — for any registered checkers, any parser
collaborators and any input. -/
theorem claim1_pipeline_valid_iff_all_passed (ext : ExternalFns) (v : Validator)
    (email : String) (hcfg : v.err = none) :
    validate ext v email = .ok (validateCore ext v.checkers email) ∧
    ((validateCore ext v.checkers email).Valid = true ↔
      ∀ cr ∈ (validateCore ext v.checkers email).Checks, cr.passed = true) ∧
    validateAll ext v email = .ok (validateAllCore ext v.checkers email) ∧
    ((validateAllCore ext v.checkers email).Valid = true ↔
      ∀ cr ∈ (validateAllCore ext v.checkers email).Checks, cr.passed = true) := by
  refine ⟨?_, validateCore_valid_iff ext v.checkers email, ?_,
    validateAllCore_valid_iff ext v.checkers email⟩
  · unfold validate; rw [hcfg]
  · unfold validateAll; rw [hcfg]

/-- Witness for C1 at a concrete validator and input. -/
theorem claim1_witness :
    ({ checkers := [synCheck asciiTables], err := none } : Validator).err = none ∧
    (validate extNone { checkers := [synCheck asciiTables], err := none } "user@example.com" =
      .ok (validateCore extNone [synCheck asciiTables] "user@example.com") ∧
    ((validateCore extNone [synCheck asciiTables] "user@example.com").Valid = true ↔
      ∀ cr ∈ (validateCore extNone [synCheck asciiTables] "user@example.com").Checks,
        cr.passed = true) ∧
    validateAll extNone { checkers := [synCheck asciiTables], err := none } "user@example.com" =
      .ok (validateAllCore extNone [synCheck asciiTables] "user@example.com") ∧
    ((validateAllCore extNone [synCheck asciiTables] "user@example.com").Valid = true ↔
      ∀ cr ∈ (validateAllCore extNone [synCheck asciiTables] "user@example.com").Checks,
        cr.passed = true)) :=
  ⟨rfl, claim1_pipeline_valid_iff_all_passed extNone
    { checkers := [synCheck asciiTables], err := none } "user@example.com" rfl⟩

/-- C5: with no latched configuration error, ValidateMany returns a result
slice of the input's length in which slot i carries input i — the internal
domain sort never reorders or drops a slot. -/
theorem claim5_bulk_index_preserving (ext : ExternalFns) (v : Validator)
    (emails : List String) (hcfg : v.err = none) :
    validateMany ext v emails = .ok (validateManyCore ext v.checkers emails) ∧
    (validateManyCore ext v.checkers emails).length = emails.length ∧
    ∀ i : Nat, ((validateManyCore ext v.checkers emails)[i]?).map Result.Email = emails[i]? := by
  refine ⟨?_, validateManyCore_length ext v.checkers emails,
    fun i => validateManyCore_index ext v.checkers emails i⟩
  unfold validateMany; rw [hcfg]

/-- Witness for C5 at a concrete input slice whose domain sort reorders the
jobs. -/
theorem claim5_witness :
    ({ checkers := [synCheck asciiTables], err := none } : Validator).err = none ∧
    (validateMany extNone { checkers := [synCheck asciiTables], err := none }
        ["b@zzz.example", "a@aaa.example", "invalid"] =
      .ok (validateManyCore extNone [synCheck asciiTables]
        ["b@zzz.example", "a@aaa.example", "invalid"]) ∧
    (validateManyCore extNone [synCheck asciiTables]
      ["b@zzz.example", "a@aaa.example", "invalid"]).length = 3 ∧
    ∀ i : Nat, ((validateManyCore extNone [synCheck asciiTables]
        ["b@zzz.example", "a@aaa.example", "invalid"])[i]?).map Result.Email =
      (["b@zzz.example", "a@aaa.example", "invalid"] : List String)[i]?) :=
  ⟨rfl, claim5_bulk_index_preserving extNone
    { checkers := [synCheck asciiTables], err := none }
    ["b@zzz.example", "a@aaa.example", "invalid"] rfl⟩

/-- Evaluation of NewEmail on input that trims to the empty string: the RFC
5322 parser rejects the empty string bare and bracketed, and the manual split
finds no at-sign. -/
theorem NewEmail_raw_empty (ext : ExternalFns) (s : String) (hs : trimSpace s = "")
    (hp1 : ext.parseAddress "" = none) (hp2 : ext.parseAddress "<>" = none) :
    NewEmail ext s = { Raw := "" } := by
  have hb : ("<" ++ "" ++ ">" : String) = "<>" := rfl
  have hl : lastIdxOf '@' "" = none := rfl
  simp only [NewEmail, hs, hp1, hb, hp2, parseManual, hl]

/-- Short-circuit evaluation when the first registered check fails. -/
theorem validate_first_fail (ext : ExternalFns) (c : Checker) (rest : List Checker)
    (email : String) (hc : (c (NewEmail ext email)).passed = false) :
    validate ext { checkers := c :: rest, err := none } email =
      .ok { Email := email, Valid := false, Checks := [c (NewEmail ext email)] } := by
  unfold validate validateCore
  simp only [runChecksSC]
  rw [if_neg (by rw [hc]; simp)]
  simp

/-- C10: an input that trims to the empty string yields Valid false with
exactly one syntax-level CheckResult whose details are "empty email address",
while a non-empty unparseable input is reported as "invalid email syntax". -/
theorem claim10_empty_input_diagnostic (ext : ExternalFns) (tabs : UnicodeTables)
    (rest : List Checker) (s : String)
    (hs : trimSpace s = "")
    (hp1 : ext.parseAddress "" = none) (hp2 : ext.parseAddress "<>" = none)
    (hp3 : ext.parseAddress "noatsign" = none) (hp4 : ext.parseAddress "<noatsign>" = none) :
    validate ext { checkers := synCheck tabs :: rest, err := none } s =
      .ok { Email := s, Valid := false,
            Checks := [{ level := "syntax", passed := false,
                         details := "empty email address" }] } ∧
    validate ext { checkers := synCheck tabs :: rest, err := none } "noatsign" =
      .ok { Email := "noatsign", Valid := false,
            Checks := [{ level := "syntax", passed := false,
                         details := "invalid email syntax" }] } := by
  have hne := NewEmail_raw_empty ext s hs hp1 hp2
  have hsyn : synCheck tabs { Raw := "" } =
      { level := "syntax", passed := false, details := "empty email address" } := rfl
  have hne2 : NewEmail ext "noatsign" = { Raw := "noatsign" } := by
    have ht : trimSpace "noatsign" = "noatsign" := rfl
    have hb : ("<" ++ "noatsign" ++ ">" : String) = "<noatsign>" := rfl
    have hl : lastIdxOf '@' "noatsign" = none := rfl
    simp only [NewEmail, ht, hp3, hb, hp4, parseManual, hl]
  have hsyn2 : synCheck tabs { Raw := "noatsign" } =
      { level := "syntax", passed := false, details := "invalid email syntax" } := rfl
  constructor
  · have h1 := validate_first_fail ext (synCheck tabs) rest s (by rw [hne, hsyn])
    rw [hne, hsyn] at h1
    exact h1
  · have h1 := validate_first_fail ext (synCheck tabs) rest "noatsign"
      (by rw [hne2, hsyn2])
    rw [hne2, hsyn2] at h1
    exact h1

/-- Witness for C10: whitespace-only input on a syntax-only validator. -/
theorem claim10_witness :
    trimSpace "   " = "" ∧
    (validate extNone { checkers := [synCheck asciiTables], err := none } "   " =
      .ok { Email := "   ", Valid := false,
            Checks := [{ level := "syntax", passed := false,
                         details := "empty email address" }] } ∧
    validate extNone { checkers := [synCheck asciiTables], err := none } "noatsign" =
      .ok { Email := "noatsign", Valid := false,
            Checks := [{ level := "syntax", passed := false,
                         details := "invalid email syntax" }] }) :=
  ⟨rfl, claim10_empty_input_diagnostic extNone asciiTables [] "   " rfl rfl rfl rfl rfl⟩

/-- Local part of 64 two-byte characters (u-umlaut): 64 characters, 128 UTF-8
bytes. -/
def longLocal : String := String.mk (List.replicate 64 (Char.ofNat 252))

/-- ASCII domain of 130 characters. -/
def longDomain : String := String.mk (List.replicate 126 'a') ++ ".com"

/-- Address of 195 characters but 259 UTF-8 bytes. -/
def longEmail : String := longLocal ++ "@" ++ longDomain

set_option maxRecDepth 100000 in
/-- Counterexample to C8 as stated: a parsed, valid address whose character
count is within both limits (195 ≤ 254 total, 64 ≤ 64 local) is nevertheless
failed by the syntax check on length grounds, because Go len() counts UTF-8
bytes (259 > 254 here), not characters. -/
theorem claim8_counterexample :
    (NewEmail extNone longEmail).Valid = true ∧
    (NewEmail extNone longEmail).Raw.length ≤ 254 ∧
    (NewEmail extNone longEmail).Local.length ≤ 64 ∧
    (synCheck asciiTables (NewEmail extNone longEmail)).passed = false ∧
    (synCheck asciiTables (NewEmail extNone longEmail)).details =
      "email address exceeds 254 characters" := by
  refine ⟨rfl, by decide, by decide, rfl, rfl⟩

/-- C8 amended: with both limits measured in UTF-8 bytes (Go len()), the
syntax check fails whenever the total exceeds 254 bytes or the local part
exceeds 64 bytes, and an address within both byte limits is never failed on
length grounds alone. -/
theorem claim8_length_gates_bytes (tabs : UnicodeTables) (e : EmailP)
    (hv : e.Valid = true) (hr : e.Raw ≠ "") :
    (e.Raw.utf8ByteSize > 254 ∨ e.Local.utf8ByteSize > 64 →
      (synCheck tabs e).passed = false) ∧
    (e.Raw.utf8ByteSize ≤ 254 → e.Local.utf8ByteSize ≤ 64 →
      (synCheck tabs e).details ≠ "email address exceeds 254 characters" ∧
      (synCheck tabs e).details ≠ "local part exceeds 64 characters") := by
  constructor
  · exact synCheck_fail_long tabs e hr hv
  · intro h1 h2
    exact synCheck_notLen tabs e hr hv (by omega) (by omega)

/-- Witness for the amended C8 at a concrete parsed email. -/
theorem claim8_witness :
    ({ Raw := "user@example.com", Local := "user", Domain := "example.com",
       DomainUnicode := "example.com", Valid := true } : EmailP).Valid = true ∧
    ({ Raw := "user@example.com", Local := "user", Domain := "example.com",
       DomainUnicode := "example.com", Valid := true } : EmailP).Raw ≠ "" ∧
    (("user@example.com" : String).utf8ByteSize > 254 ∨
        ("user" : String).utf8ByteSize > 64 →
      (synCheck asciiTables
        { Raw := "user@example.com", Local := "user", Domain := "example.com",
          DomainUnicode := "example.com", Valid := true }).passed = false) ∧
    (("user@example.com" : String).utf8ByteSize ≤ 254 →
      ("user" : String).utf8ByteSize ≤ 64 →
      (synCheck asciiTables
        { Raw := "user@example.com", Local := "user", Domain := "example.com",
          DomainUnicode := "example.com", Valid := true }).details ≠
        "email address exceeds 254 characters" ∧
      (synCheck asciiTables
        { Raw := "user@example.com", Local := "user", Domain := "example.com",
          DomainUnicode := "example.com", Valid := true }).details ≠
        "local part exceeds 64 characters") :=
  ⟨rfl, by decide,
    (claim8_length_gates_bytes asciiTables
      { Raw := "user@example.com", Local := "user", Domain := "example.com",
        DomainUnicode := "example.com", Valid := true } rfl (by decide)).1,
    (claim8_length_gates_bytes asciiTables
      { Raw := "user@example.com", Local := "user", Domain := "example.com",
        DomainUnicode := "example.com", Valid := true } rfl (by decide)).2⟩

/-- C9: typo detection never fails a result — the domain check passes for
every valid, non-disposable email; a non-empty suggestion is a known provider
at minimal Levenshtein distance within the threshold, and it is non-empty
whenever the domain is not an exact provider match and some provider is within
the threshold; validating user@gmial.com with the domain level enabled yields
valid = true with suggestion gmail.com. -/
theorem claim9_typo_never_fails :
    (∀ (disp : String → Bool) (cfg : DomainConfig) (e : EmailP),
      e.Valid = true →
      (cfg.CheckDisposable = true → disp (toLowerStr e.Domain) = false) →
      (domainCheck disp cfg e).passed = true) ∧
    (∀ (thr : Nat) (d : String), d ∉ defaultKnownProviders →
      ((findTypoSuggestion defaultKnownProviders thr d = "" →
          ∀ p ∈ defaultKnownProviders, levDistance d p > thr) ∧
       (findTypoSuggestion defaultKnownProviders thr d ≠ "" →
          findTypoSuggestion defaultKnownProviders thr d ∈ defaultKnownProviders ∧
          levDistance d (findTypoSuggestion defaultKnownProviders thr d) ≤ thr ∧
          ∀ p ∈ defaultKnownProviders,
            levDistance d (findTypoSuggestion defaultKnownProviders thr d) ≤
              levDistance d p))) ∧
    (∀ (ext : ExternalFns) (disp : String → Bool),
      ext.parseAddress "user@gmial.com" = some "user@gmial.com" →
      (ext.idnaToUnicode "gmial.com").getD "gmial.com" = "gmial.com" →
      disp "gmial.com" = false →
      validate ext { checkers := [synCheck asciiTables,
                                  domainCheck disp defaultDomainOptions],
                     err := none } "user@gmial.com" =
        .ok { Email := "user@gmial.com", Valid := true,
              Checks := [{ level := "syntax", passed := true, details := "syntax ok" },
                         { level := "domain", passed := true,
                           details := "possible typo in domain",
                           suggestion := "gmail.com" }] }) := by
  refine ⟨fun disp cfg e hv hnd => domainCheck_passes disp cfg e hv hnd,
    fun thr d hne => findTypoSuggestion_spec defaultKnownProviders thr d hne (by decide),
    ?_⟩
  intro ext disp hpa hun hdisp
  have hne : NewEmail ext "user@gmial.com" =
      { Raw := "user@gmial.com", Local := "user", Domain := "gmial.com",
        DomainUnicode := "gmial.com", Valid := true } := by
    have ht : trimSpace "user@gmial.com" = "user@gmial.com" := rfl
    have hsp : splitFirstAt '@' "user@gmial.com" = some ("user", "gmial.com") := rfl
    have hlow : toLowerStr "gmial.com" = "gmial.com" := rfl
    simp only [NewEmail, ht, hpa, hsp]
    rw [if_neg (by decide)]
    simp only [buildEmail, convertDomain, hlow]
    rw [if_neg (by decide)]
    rw [hun]
  have hsynok : synCheck asciiTables
      { Raw := "user@gmial.com", Local := "user", Domain := "gmial.com",
        DomainUnicode := "gmial.com", Valid := true } =
      { level := "syntax", passed := true, details := "syntax ok" } := rfl
  have hlow : toLowerStr "gmial.com" = "gmial.com" := rfl
  have hfs : findTypoSuggestion defaultKnownProviders 2 "gmial.com" = "gmail.com" := by decide
  have hdcr := domainCheck_suggestion disp defaultDomainOptions
    { Raw := "user@gmial.com", Local := "user", Domain := "gmial.com",
      DomainUnicode := "gmial.com", Valid := true }
    rfl (fun _ => by rw [show toLowerStr "gmial.com" = "gmial.com" from rfl]; exact hdisp)
    rfl (by show findTypoSuggestion defaultKnownProviders 2 (toLowerStr "gmial.com") ≠ ""
            rw [hlow, hfs]; decide)
  rw [show defaultDomainOptions.TypoThreshold = 2 from rfl,
    show toLowerStr "gmial.com" = "gmial.com" from rfl, hfs] at hdcr
  unfold validate validateCore
  simp only [runChecksSC, hne, hsynok, hdcr]
  simp

/-- Witness for C9 at concrete collaborators. -/
theorem claim9_witness :
    (extNone.parseAddress "user@gmial.com" = none) ∧
    ((domainCheck (fun _ => false) defaultDomainOptions
      { Raw := "user@gmial.com", Local := "user", Domain := "gmial.com",
        DomainUnicode := "gmial.com", Valid := true }).passed = true) ∧
    (validate { parseAddress := fun s => if s = "user@gmial.com" then some s else none,
                idnaToASCII := fun _ => none, idnaToUnicode := fun _ => none }
        { checkers := [synCheck asciiTables,
                       domainCheck (fun _ => false) defaultDomainOptions],
          err := none } "user@gmial.com" =
      .ok { Email := "user@gmial.com", Valid := true,
            Checks := [{ level := "syntax", passed := true, details := "syntax ok" },
                       { level := "domain", passed := true,
                         details := "possible typo in domain",
                         suggestion := "gmail.com" }] }) :=
  ⟨rfl,
    claim9_typo_never_fails.1 (fun _ => false) defaultDomainOptions
      { Raw := "user@gmial.com", Local := "user", Domain := "gmial.com",
        DomainUnicode := "gmial.com", Valid := true } rfl (fun _ => rfl),
    claim9_typo_never_fails.2.2
      { parseAddress := fun s => if s = "user@gmial.com" then some s else none,
        idnaToASCII := fun _ => none, idnaToUnicode := fun _ => none }
      (fun _ => false) (by decide) rfl rfl⟩

/-- Pointwise heap agreement on a slice's addresses preserves its values. -/
theorem DnsCache.valsOf_congr (h h' : DnsCache.Heap) (o : Option (List Nat))
    (hp : ∀ a ∈ DnsCache.addrsOf o, h'.mem a = h.mem a) :
    DnsCache.valsOf o h' = DnsCache.valsOf o h := by
  cases o with
  | none => rfl
  | some addrs =>
    simp only [DnsCache.valsOf, Option.map_some]
    refine congrArg some (List.map_congr_left ?_)
    intro a ha
    exact hp a (by simpa [DnsCache.addrsOf] using ha)

/-- Cache-hit evaluation of LookupMX: a completed unexpired entry is served as
a deep copy with no resolver call. -/
theorem DnsCache.lookupMX_hit (resolver : String → DnsCache.ResolverOut) (now : Nat)
    (st : DnsCache.CacheS) (h : DnsCache.Heap) (domain : String) (e : DnsCache.CEntry)
    (he : DnsCache.lookupEntry st domain = some e) (hexp : now < e.expires) :
    DnsCache.lookupMX resolver now st h domain =
      { recs := (DnsCache.copyMX h e.recs).1, err := e.err, st := st,
        heap := (DnsCache.copyMX h e.recs).2, called := false } := by
  unfold DnsCache.lookupMX
  rw [he]
  dsimp only
  rw [if_pos hexp]

/-- C2: a first LookupMX on a domain invokes the resolver; a second sequential
LookupMX before the entry's TTL expiry does not invoke it again, and returns
the same record values and the same error — negative results are cached for
the same TTL as successes (the resolver outcome here is arbitrary, error or
records). -/
theorem claim2_negative_caching (resolver : String → DnsCache.ResolverOut)
    (t1 t2 : Nat) (st0 : DnsCache.CacheS) (h0 : DnsCache.Heap) (D : String)
    (hok : DnsCache.cacheOk st0 h0)
    (hfirst : DnsCache.lookupEntry st0 D = none)
    (httl : t2 < t1 + st0.cacheTTL) :
    (DnsCache.lookupMX resolver t1 st0 h0 D).called = true ∧
    (DnsCache.lookupMX resolver t2 (DnsCache.lookupMX resolver t1 st0 h0 D).st
      (DnsCache.lookupMX resolver t1 st0 h0 D).heap D).called = false ∧
    (DnsCache.lookupMX resolver t2 (DnsCache.lookupMX resolver t1 st0 h0 D).st
      (DnsCache.lookupMX resolver t1 st0 h0 D).heap D).err =
      (DnsCache.lookupMX resolver t1 st0 h0 D).err ∧
    DnsCache.valsOf
      (DnsCache.lookupMX resolver t2 (DnsCache.lookupMX resolver t1 st0 h0 D).st
        (DnsCache.lookupMX resolver t1 st0 h0 D).heap D).recs
      (DnsCache.lookupMX resolver t2 (DnsCache.lookupMX resolver t1 st0 h0 D).st
        (DnsCache.lookupMX resolver t1 st0 h0 D).heap D).heap =
    DnsCache.valsOf (DnsCache.lookupMX resolver t1 st0 h0 D).recs
      (DnsCache.lookupMX resolver t1 st0 h0 D).heap := by
  have ho1 : DnsCache.lookupMX resolver t1 st0 h0 D =
      DnsCache.refreshLookup resolver t1 st0 h0 D := by
    unfold DnsCache.lookupMX
    rw [hfirst]
  obtain ⟨hok1, httl1, _, _, ⟨e, he, herr, hexp, hvals⟩, hcalled⟩ :=
    DnsCache.refreshLookup_spec resolver t1 st0 h0 D hok
  have hexp2 : t2 < e.expires := by rw [hexp]; omega
  rw [ho1]
  refine ⟨hcalled, ?_⟩
  rw [DnsCache.lookupMX_hit resolver t2 _ _ D e he hexp2]
  refine ⟨rfl, herr.symm, ?_⟩
  have hentry : DnsCache.entryOk (DnsCache.refreshLookup resolver t1 st0 h0 D).heap e :=
    hok1 (D, e) (DnsCache.lookupEntry_mem _ D e he)
  calc DnsCache.valsOf
        (DnsCache.copyMX (DnsCache.refreshLookup resolver t1 st0 h0 D).heap e.recs).1
        (DnsCache.copyMX (DnsCache.refreshLookup resolver t1 st0 h0 D).heap e.recs).2
      = DnsCache.valsOf e.recs (DnsCache.refreshLookup resolver t1 st0 h0 D).heap :=
        DnsCache.copyMX_read _ e.recs
    _ = DnsCache.valsOf (DnsCache.refreshLookup resolver t1 st0 h0 D).recs
        (DnsCache.refreshLookup resolver t1 st0 h0 D).heap := hvals.symm

/-- Concrete resolver, cache and heap for the cache witnesses. -/
def resolverW : String → DnsCache.ResolverOut :=
  fun _ => { recs := some [{ host := "mx1.example.com.", pref := 10 }], err := none }

def st0W : DnsCache.CacheS := { entries := [], cacheTTL := 1000 }

def h0W : DnsCache.Heap := { next := 0, mem := fun _ => { host := "", pref := 0 } }

theorem st0W_ok : DnsCache.cacheOk st0W h0W := by
  intro p hp
  simp [st0W] at hp

/-- Witness for C2 at a concrete resolver, domain and TTL. -/
theorem claim2_witness :
    DnsCache.lookupEntry st0W "example.com" = none ∧
    (DnsCache.lookupMX resolverW 0 st0W h0W "example.com").called = true ∧
    (DnsCache.lookupMX resolverW 500 (DnsCache.lookupMX resolverW 0 st0W h0W "example.com").st
      (DnsCache.lookupMX resolverW 0 st0W h0W "example.com").heap "example.com").called = false ∧
    (DnsCache.lookupMX resolverW 500 (DnsCache.lookupMX resolverW 0 st0W h0W "example.com").st
      (DnsCache.lookupMX resolverW 0 st0W h0W "example.com").heap "example.com").err =
      (DnsCache.lookupMX resolverW 0 st0W h0W "example.com").err ∧
    DnsCache.valsOf
      (DnsCache.lookupMX resolverW 500 (DnsCache.lookupMX resolverW 0 st0W h0W "example.com").st
        (DnsCache.lookupMX resolverW 0 st0W h0W "example.com").heap "example.com").recs
      (DnsCache.lookupMX resolverW 500 (DnsCache.lookupMX resolverW 0 st0W h0W "example.com").st
        (DnsCache.lookupMX resolverW 0 st0W h0W "example.com").heap "example.com").heap =
    DnsCache.valsOf (DnsCache.lookupMX resolverW 0 st0W h0W "example.com").recs
      (DnsCache.lookupMX resolverW 0 st0W h0W "example.com").heap :=
  ⟨rfl, claim2_negative_caching resolverW 0 500 st0W h0W "example.com"
    st0W_ok rfl (by decide)⟩

/-- C7: the records returned by LookupMX are deep copies — they share no
object address with any cached entry, and after arbitrary mutation of the
heap cells behind the returned slice (and arbitrary reordering of the caller's
slice, which never touches the heap), a subsequent unexpired LookupMX on the
same domain still returns the original record values and error. -/
theorem claim7_defensive_copies (resolver : String → DnsCache.ResolverOut)
    (t1 : Nat) (st0 : DnsCache.CacheS) (h0 : DnsCache.Heap) (D : String)
    (hok : DnsCache.cacheOk st0 h0) :
    (∀ a ∈ DnsCache.addrsOf (DnsCache.lookupMX resolver t1 st0 h0 D).recs,
      ∀ p ∈ (DnsCache.lookupMX resolver t1 st0 h0 D).st.entries,
        a ∉ DnsCache.addrsOf p.2.recs) ∧
    (∀ h2 : DnsCache.Heap,
      (∀ x, x ∉ DnsCache.addrsOf (DnsCache.lookupMX resolver t1 st0 h0 D).recs →
        h2.mem x = (DnsCache.lookupMX resolver t1 st0 h0 D).heap.mem x) →
      ∀ (t2 : Nat) (e : DnsCache.CEntry),
        DnsCache.lookupEntry (DnsCache.lookupMX resolver t1 st0 h0 D).st D = some e →
        t2 < e.expires →
        (DnsCache.lookupMX resolver t2 (DnsCache.lookupMX resolver t1 st0 h0 D).st h2 D).called
          = false ∧
        (DnsCache.lookupMX resolver t2 (DnsCache.lookupMX resolver t1 st0 h0 D).st h2 D).err
          = (DnsCache.lookupMX resolver t1 st0 h0 D).err ∧
        DnsCache.valsOf
          (DnsCache.lookupMX resolver t2 (DnsCache.lookupMX resolver t1 st0 h0 D).st h2 D).recs
          (DnsCache.lookupMX resolver t2 (DnsCache.lookupMX resolver t1 st0 h0 D).st h2 D).heap
          = DnsCache.valsOf (DnsCache.lookupMX resolver t1 st0 h0 D).recs
              (DnsCache.lookupMX resolver t1 st0 h0 D).heap) := by
  obtain ⟨hok1, _, _, hdisj, ⟨e1, he1, herr1, hvals1⟩⟩ :=
    DnsCache.lookupMX_spec resolver t1 st0 h0 D hok
  refine ⟨fun a ha p hp => hdisj p hp a ha, ?_⟩
  intro h2 hagree t2 e he hexp
  have hee : e = e1 := by
    rw [he1] at he
    injection he with he
    exact he.symm
  subst hee
  rw [DnsCache.lookupMX_hit resolver t2 _ h2 D e he1 hexp]
  refine ⟨rfl, herr1.symm, ?_⟩
  have hmemagree : ∀ a ∈ DnsCache.addrsOf e.recs,
      h2.mem a = (DnsCache.lookupMX resolver t1 st0 h0 D).heap.mem a := by
    intro a ha
    refine hagree a (fun hmem => ?_)
    exact hdisj (D, e) (DnsCache.lookupEntry_mem _ D e he1) a hmem ha
  calc DnsCache.valsOf (DnsCache.copyMX h2 e.recs).1 (DnsCache.copyMX h2 e.recs).2
      = DnsCache.valsOf e.recs h2 := DnsCache.copyMX_read h2 e.recs
    _ = DnsCache.valsOf e.recs (DnsCache.lookupMX resolver t1 st0 h0 D).heap :=
        DnsCache.valsOf_congr _ h2 e.recs hmemagree
    _ = DnsCache.valsOf (DnsCache.lookupMX resolver t1 st0 h0 D).recs
        (DnsCache.lookupMX resolver t1 st0 h0 D).heap := hvals1.symm

/-- First lookup of the C7 witness. -/
def o1W : DnsCache.LookupOut := DnsCache.lookupMX resolverW 0 st0W h0W "example.com"

/-- Heap after the witness caller overwrote every returned record object. -/
def h2W : DnsCache.Heap :=
  { next := o1W.heap.next
    mem := fun a => if a ∈ DnsCache.addrsOf o1W.recs then { host := "mutated", pref := 99 }
      else o1W.heap.mem a }

/-- Witness for C7: mutation of the returned copy does not leak into the next
lookup. -/
theorem claim7_witness :
    (∀ a ∈ DnsCache.addrsOf o1W.recs, ∀ p ∈ o1W.st.entries, a ∉ DnsCache.addrsOf p.2.recs) ∧
    (DnsCache.lookupMX resolverW 500 o1W.st h2W "example.com").called = false ∧
    (DnsCache.lookupMX resolverW 500 o1W.st h2W "example.com").err = o1W.err ∧
    DnsCache.valsOf (DnsCache.lookupMX resolverW 500 o1W.st h2W "example.com").recs
      (DnsCache.lookupMX resolverW 500 o1W.st h2W "example.com").heap =
      DnsCache.valsOf o1W.recs o1W.heap := by
  have hc := claim7_defensive_copies resolverW 0 st0W h0W "example.com" st0W_ok
  have hagree : ∀ x, x ∉ DnsCache.addrsOf o1W.recs → h2W.mem x = o1W.heap.mem x := by
    intro x hx
    show (if x ∈ DnsCache.addrsOf o1W.recs then _ else o1W.heap.mem x) = o1W.heap.mem x
    rw [if_neg hx]
  have he : DnsCache.lookupEntry o1W.st "example.com" =
      some { recs := some [0], err := none, expires := 1000 } := rfl
  exact ⟨hc.1, hc.2 h2W hagree 500 _ he (by decide)⟩

/-- C6: in any interleaving of two concurrent LookupMX callers for the same
domain, the resolver is invoked at most once, and when both callers finish
they carry the same result — the later caller waits on the entry's completion
signal and receives the shared outcome. -/
theorem claim6_singleflight (rv : DnsFlight.LookRes) (c0 c : DnsFlight.Cfg6)
    (ha : c0.thA = .start) (hb : c0.thB = .start) (hc : c0.cnt = 0)
    (hr : DnsFlight.Reach rv c0 c) (ra rb : DnsFlight.LookRes)
    (hda : c.thA = .done ra) (hdb : c.thB = .done rb) :
    c.cnt ≤ 1 ∧ ra = rb := by
  have hi := DnsFlight.inv_reach rv c0 c ha hb hc hr
  refine ⟨hi.cnt_le, ?_⟩
  have h1 := hi.done_res .A ra hda
  have h2 := hi.done_res .B rb hdb
  rw [h1, h2]

/-- Resolver answer of the C6 witness race. -/
def rvW : DnsFlight.LookRes := { recs := some [("mx1.example.com", 10)], err := none }

def c0W : DnsFlight.Cfg6 := { slot := none, cnt := 0, thA := .start, thB := .start }

def c1W : DnsFlight.Cfg6 :=
  { slot := some { done := false, val := default, expired := false }, cnt := 0,
    thA := .resolving, thB := .start }

def c2W : DnsFlight.Cfg6 :=
  { slot := some { done := true, val := rvW, expired := false }, cnt := 1,
    thA := .done rvW, thB := .start }

def c3W : DnsFlight.Cfg6 :=
  { slot := some { done := true, val := rvW, expired := false }, cnt := 1,
    thA := .done rvW, thB := .done rvW }

/-- Witness for C6 on a concrete interleaving: A installs and resolves, B hits
the completed entry. -/
theorem claim6_witness : c3W.cnt ≤ 1 ∧ rvW = rvW := by
  have s1 : DnsFlight.Step rvW c0W c1W :=
    DnsFlight.Step.install c0W .A rfl (by simp [c0W, DnsFlight.staleSlot])
  have s2 : DnsFlight.Step rvW c1W c2W := DnsFlight.Step.resolve c1W .A rfl
  have s3 : DnsFlight.Step rvW c2W c3W :=
    DnsFlight.Step.hit c2W .B { done := true, val := rvW, expired := false } rfl rfl rfl rfl
  have hr : DnsFlight.Reach rvW c0W c3W :=
    Relation.ReflTransGen.tail (Relation.ReflTransGen.tail
      (Relation.ReflTransGen.single s1) s2) s3
  exact claim6_singleflight rvW c0W c3W rfl rfl rfl hr rvW rvW rfl rfl

/-- C3: starting from a pool with no idle connection for host H, two
successive successful CheckRCPT calls on H with MaxConnsPerHost at least 1 and
MaxUsesPerConn at least 2, the second within MaxConnAge of the first, invoke
the injected dial function exactly once — the second conversation starts with
RSET on the pooled connection instead of dialling. -/
theorem claim3_single_dial (cfg : SmtpPool.PoolConfig)
    (dialF : String → Except String (List String)) (t1 t2 : Nat)
    (st0 : SmtpPool.PoolSt) (H e1 e2 : String) (r1 r2 : Int × String)
    (hMC : 1 ≤ cfg.MaxConnsPerHost) (hMU : 2 ≤ cfg.MaxUsesPerConn)
    (hAge : t2 - t1 ≤ cfg.MaxConnAge)
    (hcl : st0.closed = false) (hfresh : SmtpPool.lookupHost st0.hosts H = [])
    (h1 : (SmtpPool.checkRCPT cfg dialF t1 st0 H e1).res = .ok r1)
    (h2 : (SmtpPool.checkRCPT cfg dialF t2
      (SmtpPool.checkRCPT cfg dialF t1 st0 H e1).st H e2).res = .ok r2) :
    (SmtpPool.checkRCPT cfg dialF t2
      (SmtpPool.checkRCPT cfg dialF t1 st0 H e1).st H e2).st.dials = st0.dials + 1 ∧
    (SmtpPool.checkRCPT cfg dialF t2
      (SmtpPool.checkRCPT cfg dialF t1 st0 H e1).st H e2).writes.head? =
      some ("RSET" ++ SmtpPool.crlf) := by
  cases hd : dialF H with
  | error e =>
    rw [SmtpPool.checkRCPT_fresh_dialErr cfg dialF t1 st0 H e1 e hcl hfresh hd] at h1
    exact absurd h1 (by simp)
  | ok script =>
    cases hdo : (SmtpPool.doCheck cfg
        { lines := script, createdAt := t1, uses := 0 } e1 true).res with
    | error e =>
      rw [SmtpPool.checkRCPT_fresh_doErr cfg dialF t1 st0 H e1 e script hcl hfresh hd hdo] at h1
      exact absurd h1 (by simp)
    | ok r =>
      have hck1 := SmtpPool.checkRCPT_fresh_ok cfg dialF t1 st0 H e1 script r hcl hfresh hd hdo
      obtain ⟨conn1, hconn1⟩ : ∃ c, (SmtpPool.doCheck cfg
          { lines := script, createdAt := t1, uses := 0 } e1 true).conn = c := ⟨_, rfl⟩
      have hcu : conn1.uses ≤ 1 := by
        rw [← hconn1]
        exact (SmtpPool.doCheck_conn cfg { lines := script, createdAt := t1, uses := 0 } e1 true).1
      have hct : conn1.createdAt = t1 := by
        rw [← hconn1]
        exact (SmtpPool.doCheck_conn cfg { lines := script, createdAt := t1, uses := 0 } e1 true).2
      have hput : SmtpPool.putConn cfg
          { st0 with hosts := SmtpPool.setHost st0.hosts H [], dials := st0.dials + 1 } H conn1 =
          { st0 with
            hosts := SmtpPool.setHost (SmtpPool.setHost st0.hosts H []) H [conn1],
            dials := st0.dials + 1 } := by
        unfold SmtpPool.putConn
        have hc1 : ({ st0 with
            hosts := SmtpPool.setHost st0.hosts H [],
            dials := st0.dials + 1 } : SmtpPool.PoolSt).closed = false := hcl
        have hh1 : SmtpPool.lookupHost ({ st0 with
            hosts := SmtpPool.setHost st0.hosts H [],
            dials := st0.dials + 1 } : SmtpPool.PoolSt).hosts H = [] :=
          SmtpPool.lookupHost_setHost_self _ _ _
        rw [hc1, hh1]
        rw [if_neg (by simp; omega)]
        simp
      have hst1eq : (SmtpPool.checkRCPT cfg dialF t1 st0 H e1).st =
          { st0 with
            hosts := SmtpPool.setHost (SmtpPool.setHost st0.hosts H []) H [conn1],
            dials := st0.dials + 1 } := by
        rw [hck1]
        show SmtpPool.putConn cfg
          { st0 with hosts := SmtpPool.setHost st0.hosts H [], dials := st0.dials + 1 } H
          (SmtpPool.doCheck cfg { lines := script, createdAt := t1, uses := 0 } e1 true).conn = _
        rw [hconn1]
        exact hput
      have hS1cl : ({ st0 with
          hosts := SmtpPool.setHost (SmtpPool.setHost st0.hosts H []) H [conn1],
          dials := st0.dials + 1 } : SmtpPool.PoolSt).closed = false := hcl
      have hS1hosts : SmtpPool.lookupHost ({ st0 with
          hosts := SmtpPool.setHost (SmtpPool.setHost st0.hosts H []) H [conn1],
          dials := st0.dials + 1 } : SmtpPool.PoolSt).hosts H = [conn1] :=
        SmtpPool.lookupHost_setHost_self _ _ _
      rw [hst1eq] at h2 ⊢
      cases hdo2 : (SmtpPool.doCheck cfg conn1 e2 false).res with
      | error e =>
        rw [SmtpPool.checkRCPT_reuse_doErr cfg dialF t2 _ H e2 e conn1 hS1cl hS1hosts
          (by omega) (by rw [hct]; exact hAge) hdo2] at h2
        exact absurd h2 (by simp)
      | ok r2x =>
        rw [SmtpPool.checkRCPT_reuse_ok cfg dialF t2 _ H e2 conn1 r2x hS1cl hS1hosts
          (by omega) (by rw [hct]; exact hAge) hdo2]
        constructor
        · rw [SmtpPool.putConn_dials]
        · exact SmtpPool.doCheck_reused_writes_head cfg conn1 e2

/-- Scripted server of the C3 witness: a banner and six 250 replies, enough
for EHLO, MAIL FROM, RCPT TO and then RSET, MAIL FROM, RCPT TO. -/
def scriptW : List String :=
  ["220 mock.smtp ESMTP\r\n", "250 ok\r\n", "250 ok\r\n", "250 ok\r\n",
   "250 ok\r\n", "250 ok\r\n", "250 ok\r\n"]

def poolCfgW : SmtpPool.PoolConfig :=
  { HeloDomain := "myapp.com", MailFrom := "verify@myapp.com",
    ConnectTimeout := 5, CommandTimeout := 10, Port := "25",
    MaxConnsPerHost := 3, MaxUsesPerConn := 100, MaxConnAge := 300 }

def dialW : String → Except String (List String) := fun _ => .ok scriptW

def poolSt0W : SmtpPool.PoolSt := { hosts := [], closed := false, dials := 0 }

/-- Witness for C3: two RCPT checks against the scripted host dial exactly
once, the second via RSET. -/
theorem claim3_witness :
    (SmtpPool.checkRCPT poolCfgW dialW 0 poolSt0W "mx1.example.com" "a@example.com").res =
      .ok (250, "250 ok") ∧
    (SmtpPool.checkRCPT poolCfgW dialW 7
      (SmtpPool.checkRCPT poolCfgW dialW 0 poolSt0W "mx1.example.com" "a@example.com").st
      "mx1.example.com" "b@example.com").res = .ok (250, "250 ok") ∧
    (SmtpPool.checkRCPT poolCfgW dialW 7
      (SmtpPool.checkRCPT poolCfgW dialW 0 poolSt0W "mx1.example.com" "a@example.com").st
      "mx1.example.com" "b@example.com").st.dials = poolSt0W.dials + 1 ∧
    (SmtpPool.checkRCPT poolCfgW dialW 7
      (SmtpPool.checkRCPT poolCfgW dialW 0 poolSt0W "mx1.example.com" "a@example.com").st
      "mx1.example.com" "b@example.com").writes.head? = some ("RSET" ++ SmtpPool.crlf) :=
  ⟨rfl, rfl,
    claim3_single_dial poolCfgW dialW 0 7 poolSt0W "mx1.example.com"
      "a@example.com" "b@example.com" (250, "250 ok") (250, "250 ok")
      (by decide) (by decide) (by decide) rfl rfl rfl rfl⟩

/-- C4: a RCPT TO reply with code at least 500 is surfaced by the pool as a
result — code and message with a nil error — and the SMTP checker's MX loop
stops at once with a failing CheckResult carrying that exact integer code,
never attempting a remaining MX host. -/
theorem claim4_rcpt5xx_stops (cfgS : SmtpPool.SMTPCfg) (cfg : SmtpPool.PoolConfig)
    (dialF : String → Except String (List String)) (now : Nat) (st0 : SmtpPool.PoolSt)
    (mx : SmtpPool.MXv) (rest : List SmtpPool.MXv) (email : String) (script : List String)
    (bc ec mc code : Int) (bm em mm msg : String) (r1 r2 r3 r4 : List String)
    (hcl : st0.closed = false)
    (hfresh : SmtpPool.lookupHost st0.hosts (trimDotStr mx.host) = [])
    (hdial : dialF (trimDotStr mx.host) = .ok script)
    (hb : SmtpPool.readResponse script = .ok (bc, bm, r1)) (hbc : bc < 500)
    (he : SmtpPool.readResponse r1 = .ok (ec, em, r2)) (hec : ec < 400)
    (hm : SmtpPool.readResponse r2 = .ok (mc, mm, r3)) (hmc : mc < 400)
    (hr : SmtpPool.readResponse r3 = .ok (code, msg, r4)) (hcode : code ≥ 500) :
    (SmtpPool.checkRCPT cfg dialF now st0 (trimDotStr mx.host) email).res =
      .ok (code, msg) ∧
    ∀ lastE : Option String,
      (SmtpPool.smtpLoop cfgS cfg dialF now email (mx :: rest) st0 lastE).cr =
        { level := "smtp", passed := false, details := "RCPT rejected: " ++ msg,
          mxHost := trimDotStr mx.host, smtpCode := code } ∧
      (SmtpPool.smtpLoop cfgS cfg dialF now email (mx :: rest) st0 lastE).attempts = 1 ∧
      ∀ rest' : List SmtpPool.MXv,
        SmtpPool.smtpLoop cfgS cfg dialF now email (mx :: rest) st0 lastE =
        SmtpPool.smtpLoop cfgS cfg dialF now email (mx :: rest') st0 lastE := by
  have hdo := SmtpPool.doCheck_new_eval cfg { lines := script, createdAt := now, uses := 0 }
    email bc bm r1 ec em r2 mc mm r3 code msg r4 hb hbc he hec hm hmc hr
  have hres : (SmtpPool.doCheck cfg { lines := script, createdAt := now, uses := 0 }
      email true).res = .ok (code, msg) := by rw [hdo]
  have hck := SmtpPool.checkRCPT_fresh_ok cfg dialF now st0 (trimDotStr mx.host) email
    script (code, msg) hcl hfresh hdial hres
  refine ⟨by rw [hck], ?_⟩
  intro lastE
  have hloop := SmtpPool.smtpLoop_stop5xx cfgS cfg dialF now email mx rest st0 _ lastE _
    code msg hck hcode
  refine ⟨by rw [hloop], by rw [hloop], ?_⟩
  intro rest'
  rw [hloop, SmtpPool.smtpLoop_stop5xx cfgS cfg dialF now email mx rest' st0 _ lastE _
    code msg hck hcode]

/-- Script of the C4 witness: the RCPT TO probe is answered 550. -/
def script4W : List String :=
  ["220 mock.smtp ESMTP\r\n", "250 ok\r\n", "250 ok\r\n", "550 user unknown\r\n"]

def dial4W : String → Except String (List String) := fun _ => .ok script4W

def smtpCfgW : SmtpPool.SMTPCfg :=
  { HeloDomain := "myapp.com", MailFrom := "verify@myapp.com", MaxMXHosts := 2 }

def mx1W : SmtpPool.MXv := { host := "mx1.example.com.", pref := 10 }

def mx2W : SmtpPool.MXv := { host := "mx2.example.com.", pref := 20 }

/-- Witness for C4: a 550 RCPT reply surfaces as result (550, message) and the
loop stops after one attempt, ignoring the second MX host. -/
theorem claim4_witness :
    (SmtpPool.checkRCPT poolCfgW dial4W 0 poolSt0W (trimDotStr mx1W.host)
      "bad@example.com").res = .ok (550, "550 user unknown") ∧
    (SmtpPool.smtpLoop smtpCfgW poolCfgW dial4W 0 "bad@example.com" [mx1W, mx2W]
      poolSt0W none).cr =
      { level := "smtp", passed := false, details := "RCPT rejected: 550 user unknown",
        mxHost := "mx1.example.com", smtpCode := 550 } ∧
    (SmtpPool.smtpLoop smtpCfgW poolCfgW dial4W 0 "bad@example.com" [mx1W, mx2W]
      poolSt0W none).attempts = 1 ∧
    SmtpPool.smtpLoop smtpCfgW poolCfgW dial4W 0 "bad@example.com" [mx1W, mx2W]
      poolSt0W none =
    SmtpPool.smtpLoop smtpCfgW poolCfgW dial4W 0 "bad@example.com" [mx1W] poolSt0W none := by
  have h := claim4_rcpt5xx_stops smtpCfgW poolCfgW dial4W 0 poolSt0W mx1W [mx2W]
    "bad@example.com" script4W 220 250 250 550 "220 mock.smtp ESMTP" "250 ok" "250 ok"
    "550 user unknown"
    ["250 ok\r\n", "250 ok\r\n", "550 user unknown\r\n"]
    ["250 ok\r\n", "550 user unknown\r\n"] ["550 user unknown\r\n"] []
    rfl rfl rfl rfl (by decide) rfl (by decide) rfl (by decide) rfl (by decide)
  obtain ⟨h1, h2⟩ := h
  obtain ⟨h3, h4, h5⟩ := h2 none
  exact ⟨h1, h3, h4, h5 []⟩

end Emailkit
